import Mathlib

/-!
# Certify tracker: the local certificate vault

A shallow embedding of the vault core of `src/app.js`: the expiry-status
classifier `getStatus`, the object-store adapter `dbAPI`, and the `Dashboard`
handlers `handleSubmit`, `handleDelete`, `handleFileChange` and `handleChange`
with the effect run on mount and the counts of the statistics strip.

Conventions of the embedding

* A JavaScript time value is an `Option Int`: `some t` is `t` milliseconds
  since the epoch, `none` is the time value of an Invalid Date (`NaN`).
* `new Date()` and `Date.now()` read the clock; every function that reads the
  clock takes the reading as an explicit argument `now`.
* `new Date(expiryDate)` is a function of the host, not of the application; the
  functions that call it take it as the argument `toDate`. `parseDateOnly` is
  the host behaviour on the date-only form `YYYY-MM-DD`, the only form the
  `<input type="date">` of the form produces.
* The quotient `(expiry - now) / 86400000` is a double in the source. Both
  operands are integers, so a quotient that is not an integer is at least
  `1 / 86400000` away from every integer, far more than the rounding error of a
  double near `0` and near `30`; `Math.ceil` of the rounded quotient therefore
  compares with `0` and with `30` exactly as the ceiling of the exact quotient
  does, which is what the embedding computes. Below `2 ^ 26` days in absolute
  value the two ceilings are also equal as numbers.
* The object store is the host's IndexedDB store, taken from its standard:
  `add` fails on a key that is present, `delete` of a key that is absent
  succeeds, `getAll` returns the records in the order of their keys, and a
  transaction whose request succeeded can still abort when it commits, which
  rolls its write back. The promises of `dbAPI` settle on the events of the
  request and listen to no event of the transaction. What the host does with
  each call is the argument `host` of the call.
-/

namespace CertifyTracker

/-! ## Status classifier -/

/-- The three values of the `text` field of the object returned by `getStatus`. -/
inductive Status where
  | EXPIRED
  | EXPIRING
  | ACTIVE
  deriving DecidableEq

/-- The `color` field that `getStatus` returns next to each `text`. -/
def Status.color : Status → String
  | .EXPIRED => "#FF3B3B"
  | .EXPIRING => "#FFD700"
  | .ACTIVE => "#00E676"

/-- The divisor `1000 * 60 * 60 * 24` of `getStatus`: milliseconds in a day. -/
def msPerDay : Int := 1000 * 60 * 60 * 24

/-- Difference of two time values, `new Date(expiryDate) - new Date()`: `NaN`
when the left operand is an Invalid Date (the clock is always valid). -/
def dateDiff (expiry : Option Int) (now : Int) : Option Int :=
  match expiry with
  | some e => some (e - now)
  | none => none

/-- The value `Math.ceil(x / (1000 * 60 * 60 * 24))`, with `NaN` kept as `NaN`. -/
def mathCeilDays (x : Option Int) : Option Int :=
  match x with
  | some a => some (-((-a) / msPerDay))
  | none => none

/-- The comparison `x < k` of JavaScript numbers: false whenever `x` is `NaN`. -/
def numLt (x : Option Int) (k : Int) : Bool :=
  match x with
  | some a => decide (a < k)
  | none => false

/-- The local `diffDays` of `getStatus`. -/
def diffDays (toDate : String → Option Int) (now : Int) (expiryDate : String) : Option Int :=
  mathCeilDays (dateDiff (toDate expiryDate) now)

/-- The function `getStatus` of `Dashboard`; `toDate` is the host's
`new Date(string)` and `now` the time value of `new Date()`. -/
def getStatus (toDate : String → Option Int) (now : Int) (expiryDate : String) : Status :=
  if numLt (diffDays toDate now expiryDate) 0 then Status.EXPIRED
  else if numLt (diffDays toDate now expiryDate) 30 then Status.EXPIRING
  else Status.ACTIVE

/-! ### The host's date parser on the date-only form -/

/-- Value of a decimal digit character, `none` for any other character. -/
def digitVal (c : Char) : Option Nat :=
  if 48 ≤ c.toNat ∧ c.toNat ≤ 57 then some (c.toNat - 48) else none

/-- Value of a run of decimal digits, `none` if one character is not a digit. -/
def digitsVal : List Char → Option Nat
  | [] => some 0
  | c :: cs =>
    match digitVal c, digitsVal cs with
    | some d, some r => some (d * 10 ^ cs.length + r)
    | _, _ => none

/-- Gregorian leap year. -/
def isLeapYear (y : Nat) : Bool :=
  (y % 4 == 0 && y % 100 != 0) || y % 400 == 0

/-- Number of days of month `m` (1 to 12) of year `y`; `0` for any other `m`. -/
def daysInMonth (y m : Nat) : Nat :=
  if m = 2 then (if isLeapYear y then 29 else 28)
  else if m = 4 ∨ m = 6 ∨ m = 9 ∨ m = 11 then 30
  else if 1 ≤ m ∧ m ≤ 12 then 31
  else 0

/-- Days from 1970-01-01 to the proleptic Gregorian date `y-m-d`. -/
def daysFromCivil (y m d : Nat) : Int :=
  let yy : Int := if m ≤ 2 then (y : Int) - 1 else (y : Int)
  let era : Int := yy / 400
  let yoe : Int := yy - era * 400
  let mp : Int := if m ≤ 2 then (m : Int) + 9 else (m : Int) - 3
  let doy : Int := (153 * mp + 2) / 5 + (d : Int) - 1
  let doe : Int := yoe * 365 + yoe / 4 - yoe / 100 + doy
  era * 146097 + doe - 719468

/-- The time value of `new Date(s)` for a string in the date-only form
`YYYY-MM-DD` naming a calendar date: midnight UTC of that date. Every other
string is given `none` here; hosts accept further forms, which the
application never produces. -/
def parseDateOnly (s : String) : Option Int :=
  match s.toList with
  | [y1, y2, y3, y4, '-', m1, m2, '-', d1, d2] =>
    match digitsVal [y1, y2, y3, y4], digitsVal [m1, m2], digitsVal [d1, d2] with
    | some y, some m, some d =>
      if 1 ≤ m ∧ m ≤ 12 ∧ 1 ≤ d ∧ d ≤ daysInMonth y m then
        some (daysFromCivil y m d * msPerDay)
      else none
    | _, _, _ => none
  | _ => none

/-! ## Data model -/

/-- The state `form` of `Dashboard`: the fields typed into the form and the
data URL of the chosen image, if one was read. -/
structure Form where
  name : String
  issuer : String
  expiryDate : String
  image : Option String
  deriving DecidableEq

/-- The initial and the reset value of `form`:
`{ name: "", issuer: "", expiryDate: "", image: null }`. -/
def emptyForm : Form :=
  { name := "", issuer := "", expiryDate := "", image := none }

/-- A stored record, `{ ...form, id: Date.now() }`. -/
structure Certificate where
  name : String
  issuer : String
  expiryDate : String
  image : Option String
  id : Int
  deriving DecidableEq

/-! ## Object store and `dbAPI` -/

/-- An error carried by a failed IndexedDB request. -/
inductive DbError where
  | ConstraintError
  | OtherError (name : String)
  deriving DecidableEq

/-- What the host does with one call of `dbAPI`: it lets the call run and
commits its transaction, or the `indexedDB.open` of `initDB` fails, or the
request on the object store fails for a reason of the host (a broken disk), or
the request is let run and the transaction then aborts when it commits (quota
exceeded), which rolls the write back after `request.onsuccess` has fired. -/
inductive HostOutcome where
  | runs
  | openFails (e : DbError)
  | requestFails (e : DbError)
  | commitFails (e : DbError)
  deriving DecidableEq

/-- Whether the host commits the transaction of a request that it let run. -/
def HostOutcome.commits : HostOutcome → Bool
  | .commitFails _ => false
  | _ => true

/-- The contents of the object store `certificates`, whose key path is `id`:
the records in ascending order of key, one record for each key. -/
abbrev ObjectStore := List Certificate

/-- Whether the object store holds a record with key `id`. -/
def hasKey (db : ObjectStore) (id : Int) : Bool :=
  db.any (fun r => decide (r.id = id))

/-- Insertion of a record at its place in the order of keys. -/
def insertByKey (c : Certificate) : ObjectStore → ObjectStore
  | [] => [c]
  | r :: rs => if c.id < r.id then c :: r :: rs else r :: insertByKey c rs

/-- Removal of the record with key `id`, as `IDBObjectStore.delete` does. -/
def deleteKey (db : ObjectStore) (id : Int) : ObjectStore :=
  db.filter (fun r => decide (r.id ≠ id))

/-- The settlement of the promise of `dbAPI.getAll`, together with the store
after the call. The promise has no `onerror` handler on its request: when the
request fails the promise stays pending, which is `none`. The transaction only
reads: when it aborts after the request succeeded the promise has resolved
with the records. -/
def dbAPI.getAll (host : HostOutcome) (db : ObjectStore) :
    Option (Except DbError (List Certificate)) × ObjectStore :=
  match host with
  | .runs => (some (.ok db), db)
  | .openFails e => (some (.error e), db)
  | .requestFails _ => (none, db)
  | .commitFails _ => (some (.ok db), db)

/-- The settlement of the promise of `dbAPI.add(cert)`, together with the store
after the call. `IDBObjectStore.add` fails with a `ConstraintError` when the key
is already present, and the promise then rejects with that error. The promise
resolves on `request.onsuccess`: when the transaction aborts at commit after
that, the promise has resolved and the store is as it was before the call. -/
def dbAPI.add (host : HostOutcome) (db : ObjectStore) (cert : Certificate) :
    Except DbError Certificate × ObjectStore :=
  match host with
  | .runs =>
    if hasKey db cert.id then (.error DbError.ConstraintError, db)
    else (.ok cert, insertByKey cert db)
  | .openFails e => (.error e, db)
  | .requestFails e => (.error e, db)
  | .commitFails _ =>
    if hasKey db cert.id then (.error DbError.ConstraintError, db)
    else (.ok cert, db)

/-- The settlement of the promise of `dbAPI.delete(id)`, together with the
store after the call. Deleting a key that is absent succeeds. The promise
resolves on `request.onsuccess`: when the transaction aborts at commit after
that, the promise has resolved and the store is as it was before the call. -/
def dbAPI.delete (host : HostOutcome) (db : ObjectStore) (id : Int) :
    Except DbError Int × ObjectStore :=
  match host with
  | .runs => (.ok id, deleteKey db id)
  | .openFails e => (.error e, db)
  | .requestFails e => (.error e, db)
  | .commitFails _ => (.ok id, db)

/-! ## The `Dashboard` component -/

/-- One call of `console.error`: the leading text, if any, and the error. -/
structure ConsoleEntry where
  label : Option String
  error : DbError
  deriving DecidableEq

/-- One call of a function of `dbAPI`. -/
inductive DbCall where
  | getAll
  | add (cert : Certificate)
  | delete (id : Int)
  deriving DecidableEq

/-- The state the handlers of `Dashboard` read and write: the React state
`certificates` and `form`, the value of the file input behind `fileInputRef`,
the object store, the messages shown with `alert`, the entries written with
`console.error`, and the calls of `dbAPI` made so far. -/
structure World where
  certificates : List Certificate
  form : Form
  fileInputValue : String
  db : ObjectStore
  alerts : List String
  console : List ConsoleEntry
  dbCalls : List DbCall
  deriving DecidableEq

/-- How the promise returned by an `async` handler settles. -/
inductive Settled where
  | fulfilled
  | rejected (e : DbError)
  deriving DecidableEq

/-- A handler run to its end: the state it leaves and the settlement of the
promise it returned to its caller. -/
structure Completion where
  world : World
  settled : Settled
  deriving DecidableEq

/-- The record `{ ...form, id: Date.now() }` built by `handleSubmit`. -/
def newCert (form : Form) (now : Int) : Certificate :=
  { name := form.name, issuer := form.issuer, expiryDate := form.expiryDate,
    image := form.image, id := now }

/-- The guard `!form.name || !form.expiryDate` of `handleSubmit`; a string is
falsy exactly when it is empty. -/
def missingDetails (form : Form) : Bool :=
  decide (form.name = "") || decide (form.expiryDate = "")

/-- The part of `handleSubmit` that runs once `await dbAPI.add(newCert)` has
settled with `r`, on the state `w` of that moment. On success the updater
`prev => [...prev, newCert]` is applied to the current list, the form is reset
and the file input cleared; on failure the `catch` block alerts and logs. -/
def handleSubmitResume (cert : Certificate) (r : Except DbError Certificate) (w : World) :
    World :=
  match r with
  | .ok _ =>
    { w with certificates := w.certificates ++ [cert], form := emptyForm, fileInputValue := "" }
  | .error e =>
    { w with alerts := w.alerts ++ ["Failed to save certificate. Database error."],
             console := w.console ++ [{ label := none, error := e }] }

/-- The handler `handleSubmit`, run to its end with no other handler in
between, when the clock reads `now` and the host treats the call of
`dbAPI.add` as `host` says. -/
def handleSubmit (host : HostOutcome) (now : Int) (w : World) : Completion :=
  if missingDetails w.form then
    { world := { w with alerts := w.alerts ++ ["Please fill in details"] },
      settled := Settled.fulfilled }
  else
    let cert := newCert w.form now
    let r := dbAPI.add host w.db cert
    { world := handleSubmitResume cert r.1
        { w with db := r.2, dbCalls := w.dbCalls ++ [DbCall.add cert] },
      settled := Settled.fulfilled }

/-- The part of `handleDelete` that runs once `await dbAPI.delete(id)` has
settled with `r`. The new list is computed from `captured`, the value of
`certificates` in the render that created the handler, not from the list of
the state `w` of that moment. -/
def handleDeleteResume (captured : List Certificate) (id : Int) (r : Except DbError Int)
    (w : World) : World :=
  match r with
  | .ok _ => { w with certificates := captured.filter (fun cert => decide (cert.id ≠ id)) }
  | .error e =>
    { w with console := w.console ++ [{ label := some "Failed to delete", error := e }] }

/-- The handler `handleDelete`, run to its end with no other handler in
between: the list captured by the handler is the list of `w`. -/
def handleDelete (host : HostOutcome) (id : Int) (w : World) : Completion :=
  let r := dbAPI.delete host w.db id
  { world := handleDeleteResume w.certificates id r.1
      { w with db := r.2, dbCalls := w.dbCalls ++ [DbCall.delete id] },
    settled := Settled.fulfilled }

/-- A call `getStatus(expiryDate)` made in the state `w` when the clock reads
`now`: the status returned and the state after the call. The body of
`getStatus` assigns no state, calls no function of `dbAPI` and writes no
message. -/
def getStatusCall (toDate : String → Option Int) (now : Int) (w : World)
    (expiryDate : String) : Status × World :=
  (getStatus toDate now expiryDate, w)

/-- The state of a freshly mounted `Dashboard` over an empty object store. -/
def emptyWorld : World :=
  { certificates := [], form := emptyForm, fileInputValue := "", db := [],
    alerts := [], console := [], dbCalls := [] }

/-- An example form: the submission of the record `AWS SA`. -/
def awsForm : Form :=
  { name := "AWS SA", issuer := "Amazon", expiryDate := "2025-01-01", image := none }

/-- An example state: the record `AWS SA` with id 5 is stored and listed, and
the form holds the same submission again. -/
def awsWorld : World :=
  { certificates := [newCert awsForm 5], form := awsForm, fileInputValue := "",
    db := [newCert awsForm 5], alerts := [], console := [], dbCalls := [] }

/-! ## File input, form fields and startup -/

/-- A file chosen in the file input: its name and its size in bytes,
`file.size`. -/
structure File where
  name : String
  size : Nat
  deriving DecidableEq

/-- The synchronous part of `handleFileChange` run to its end: the state it
leaves and the file it handed to `reader.readAsDataURL`, if it started a
read. -/
structure FileChange where
  world : World
  reading : Option File
  deriving DecidableEq

/-- The handler `handleFileChange` up to its return; `file` is
`e.target.files[0]`, which is `undefined` when no file is chosen. -/
def handleFileChange (file : Option File) (w : World) : FileChange :=
  match file with
  | none => { world := w, reading := none }
  | some f =>
    if f.size > 100 * 1024 * 1024 then
      { world := { w with alerts := w.alerts ++
          ["File too large! Please choose an image under 100MB."] },
        reading := none }
    else { world := w, reading := some f }

/-- The callback `reader.onloadend`, which runs when the read ends, whether it
succeeded or failed: `result` is `reader.result`, the data URL of the file
after a successful read and `null` after a failed one. The new form is built
from `captured`, the value of `form` in the render that created the handler. -/
def onloadend (captured : Form) (result : Option String) (w : World) : World :=
  { w with form := { captured with image := result } }

/-- The file chosen, checked and read to the end with no other handler in
between; `result` is what the host leaves in `reader.result`. The host shows
the name of the chosen file in the file input. -/
def chooseFile (file : Option File) (result : Option String) (w : World) : World :=
  match (handleFileChange file w).reading with
  | some f => onloadend w.form result
      { (handleFileChange file w).world with fileInputValue := f.name }
  | none => (handleFileChange file w).world

/-- The `name` attribute of the three text inputs of the form. -/
inductive Field where
  | name
  | issuer
  | expiryDate
  deriving DecidableEq

/-- The handler `handleChange`:
`setForm({ ...form, [e.target.name]: e.target.value })`. -/
def handleChange (field : Field) (value : String) (w : World) : World :=
  match field with
  | .name => { w with form := { w.form with name := value } }
  | .issuer => { w with form := { w.form with issuer := value } }
  | .expiryDate => { w with form := { w.form with expiryDate := value } }

/-- The state of a `Dashboard` at its first render over the object store
`db`: `useState([])` and the empty form. -/
def freshWorld (db : ObjectStore) : World :=
  { emptyWorld with db := db }

/-- The effect run on mount,
`dbAPI.getAll().then(setCertificates).catch(err => console.error(err))`, run
to its end. When the promise of `getAll` stays pending neither callback
runs. -/
def mountEffect (host : HostOutcome) (w : World) : World :=
  match (dbAPI.getAll host w.db).1 with
  | some (.ok records) =>
    { w with db := (dbAPI.getAll host w.db).2, dbCalls := w.dbCalls ++ [DbCall.getAll],
             certificates := records }
  | some (.error e) =>
    { w with db := (dbAPI.getAll host w.db).2, dbCalls := w.dbCalls ++ [DbCall.getAll],
             console := w.console ++ [{ label := none, error := e }] }
  | none =>
    { w with db := (dbAPI.getAll host w.db).2, dbCalls := w.dbCalls ++ [DbCall.getAll] }

/-! ## Sequences of events, each run to its end -/

/-- One event of the user on a mounted `Dashboard`, with what the host does
during the handler of the event. -/
inductive Action where
  | change (field : Field) (value : String)
  | file (chosen : Option File) (result : Option String)
  | submit (host : HostOutcome) (now : Int)
  | delete (host : HostOutcome) (id : Int)
  deriving DecidableEq

/-- Whether the host commits the transaction of the store request of the
event, if the event makes one and the host lets it run. -/
def Action.commits : Action → Bool
  | .submit host _ => host.commits
  | .delete host _ => host.commits
  | _ => true

/-- The handler of one event, run to its end before the next event. -/
def runAction (w : World) (a : Action) : World :=
  match a with
  | .change field value => handleChange field value w
  | .file chosen result => chooseFile chosen result w
  | .submit host now => (handleSubmit host now w).world
  | .delete host id => (handleDelete host id w).world

/-- A sequence of events, each handler run to its end before the next. -/
def runActions (acts : List Action) (w : World) : World :=
  acts.foldl runAction w

/-! ## Handlers whose awaits overlap -/

/-- A handler suspended at its `await`: `handleSubmit` waiting for
`dbAPI.add(newCert)`, or `handleDelete` waiting for `dbAPI.delete(id)` with
the list `certificates` of the render that created it. -/
inductive Pending where
  | add (cert : Certificate)
  | delete (captured : List Certificate) (id : Int)
  deriving DecidableEq

/-- The state of the component together with its suspended handlers, in the
order in which they called `dbAPI`. -/
structure Async where
  world : World
  pending : List Pending
  deriving DecidableEq

/-- The handler `handleSubmit` from the event up to its `await`. -/
def submitStart (now : Int) (a : Async) : Async :=
  if missingDetails a.world.form then
    { a with world := { a.world with alerts := a.world.alerts ++ ["Please fill in details"] } }
  else
    { world := { a.world with
        dbCalls := a.world.dbCalls ++ [DbCall.add (newCert a.world.form now)] },
      pending := a.pending ++ [Pending.add (newCert a.world.form now)] }

/-- The handler `handleDelete` from the click up to its `await`. -/
def deleteStart (id : Int) (a : Async) : Async :=
  { world := { a.world with dbCalls := a.world.dbCalls ++ [DbCall.delete id] },
    pending := a.pending ++ [Pending.delete a.world.certificates id] }

/-- The request of a suspended handler is processed by the store and the rest
of the handler runs on the state of that moment. -/
def settle (host : HostOutcome) (p : Pending) (w : World) : World :=
  match p with
  | .add cert =>
    handleSubmitResume cert (dbAPI.add host w.db cert).1
      { w with db := (dbAPI.add host w.db cert).2 }
  | .delete captured id =>
    handleDeleteResume captured id (dbAPI.delete host w.db id).1
      { w with db := (dbAPI.delete host w.db id).2 }

/-- The oldest suspended handler, if there is one, is resumed: requests on
one object store are processed in the order in which they were made. -/
def resumeOldest (host : HostOutcome) (a : Async) : Async :=
  match a.pending with
  | [] => a
  | p :: rest => { world := settle host p a.world, pending := rest }

/-- An example form: a second submission. -/
def azureForm : Form :=
  { name := "Azure Admin", issuer := "Microsoft", expiryDate := "2026-06-30", image := none }

/-! ## The statistics strip -/

/-- The array `certificates.filter(c => getStatus(c.expiryDate).text === "EXPIRED")`.
Every call of the callback calls `getStatus`, which reads the clock: `clock k`
is the reading taken by the call on the record at index `k`, and `k` is the
index of the head of the list given. -/
def filterExpired (toDate : String → Option Int) (clock : Nat → Int) (k : Nat) :
    List Certificate → List Certificate
  | [] => []
  | c :: cs =>
    if getStatus toDate (clock k) c.expiryDate = Status.EXPIRED then
      c :: filterExpired toDate clock (k + 1) cs
    else filterExpired toDate clock (k + 1) cs

/-- The constant `expiredCount` of a render of `Dashboard`, the length of the
filtered array. -/
def expiredCount (toDate : String → Option Int) (clock : Nat → Int)
    (certificates : List Certificate) : Nat :=
  (filterExpired toDate clock 0 certificates).length

/-- The number shown as Active Licenses, `certificates.length - expiredCount`:
a difference of two JavaScript numbers, which are integers here. -/
def activeCount (toDate : String → Option Int) (clock : Nat → Int)
    (certificates : List Certificate) : Int :=
  (certificates.length : Int) - (expiredCount toDate clock certificates : Int)

/-- The place of a status in the order EXPIRED, EXPIRING, ACTIVE. -/
def Status.rank : Status → Nat
  | .EXPIRED => 0
  | .EXPIRING => 1
  | .ACTIVE => 2

/-- An example list: `AWS SA` expiring on 2025-01-01 and `Azure Admin`
expiring on 2026-06-30. -/
def twoCerts : List Certificate :=
  [newCert awsForm 5, newCert azureForm 7]

/-! ## The classifier: lemmas -/

/-- The integer expression of `mathCeilDays` is the ceiling of the rational
quotient by the number of milliseconds in a day. -/
theorem neg_neg_div_eq_ceil (a : Int) :
    -((-a) / msPerDay) = ⌈(a : ℚ) / 86400000⌉ := by
  have hfloor : ⌊((-a : Int) : ℚ) / ((86400000 : ℕ) : ℚ)⌋ = (-a) / ((86400000 : ℕ) : Int) :=
    Rat.floor_intCast_div_natCast (-a) 86400000
  have hq : ((-a : Int) : ℚ) / ((86400000 : ℕ) : ℚ) = -((a : ℚ) / 86400000) := by
    push_cast
    ring
  rw [hq, Int.floor_neg] at hfloor
  have hms : msPerDay = ((86400000 : ℕ) : Int) := by decide
  rw [hms, ← hfloor, neg_neg]

/-- The local `diffDays` on a date that parses to the instant `e`. -/
theorem diffDays_of_some (toDate : String → Option Int) (now e : Int) (s : String)
    (h : toDate s = some e) :
    diffDays toDate now s = some ⌈((e - now : Int) : ℚ) / 86400000⌉ := by
  simp only [diffDays, h, dateDiff, mathCeilDays, neg_neg_div_eq_ceil]

/-- The status as a case distinction on a known day difference `d`. -/
theorem getStatus_of_diffDays (toDate : String → Option Int) (now d : Int) (s : String)
    (h : diffDays toDate now s = some d) :
    getStatus toDate now s =
      if d < 0 then Status.EXPIRED else if d < 30 then Status.EXPIRING else Status.ACTIVE := by
  simp only [getStatus, h, numLt, decide_eq_true_eq]

/-- An expiry exactly `k` days after `now` has day difference `k`. -/
theorem diffDays_whole_days (toDate : String → Option Int) (now k : Int) (s : String)
    (h : toDate s = some (now + k * 86400000)) :
    diffDays toDate now s = some k := by
  rw [diffDays_of_some toDate now _ s h]
  have hq : (((now + k * 86400000 - now : Int)) : ℚ) / 86400000 = (k : ℚ) := by
    push_cast
    field_simp
  rw [hq, Int.ceil_intCast]

/-! ## The classifier: claims -/

/-- C1. For every expiry instant `e` (the time value of the parsed expiry
date) and every current instant `now`, with `d` the ceiling of
`(e - now) / 86400000`, the local `diffDays` of `getStatus` is `d`, and
`getStatus` returns EXPIRED exactly when `d < 0`, EXPIRING exactly when
`0 ≤ d < 30` and ACTIVE exactly when `30 ≤ d`. -/
theorem getStatus_classifies (toDate : String → Option Int) (now e : Int) (s : String)
    (h : toDate s = some e) :
    diffDays toDate now s = some ⌈((e - now : Int) : ℚ) / 86400000⌉ ∧
    (getStatus toDate now s = Status.EXPIRED ↔ ⌈((e - now : Int) : ℚ) / 86400000⌉ < 0) ∧
    (getStatus toDate now s = Status.EXPIRING ↔
      0 ≤ ⌈((e - now : Int) : ℚ) / 86400000⌉ ∧ ⌈((e - now : Int) : ℚ) / 86400000⌉ < 30) ∧
    (getStatus toDate now s = Status.ACTIVE ↔ 30 ≤ ⌈((e - now : Int) : ℚ) / 86400000⌉) := by
  have hd := diffDays_of_some toDate now e s h
  rw [getStatus_of_diffDays toDate now _ s hd]
  generalize ⌈((e - now : Int) : ℚ) / 86400000⌉ = d at hd
  refine ⟨hd, ?_, ?_, ?_⟩ <;> by_cases h0 : d < 0 <;> by_cases h30 : d < 30 <;>
    simp [h0, h30] <;> omega

/-- Witness of C1 at the date `2025-01-01` read at `2024-12-15T00:00Z`. -/
theorem getStatus_classifies_witness :
    parseDateOnly "2025-01-01" = some 1735689600000 ∧
    (diffDays parseDateOnly 1734220800000 "2025-01-01" =
      some ⌈((1735689600000 - 1734220800000 : Int) : ℚ) / 86400000⌉ ∧
    (getStatus parseDateOnly 1734220800000 "2025-01-01" = Status.EXPIRED ↔
      ⌈((1735689600000 - 1734220800000 : Int) : ℚ) / 86400000⌉ < 0) ∧
    (getStatus parseDateOnly 1734220800000 "2025-01-01" = Status.EXPIRING ↔
      0 ≤ ⌈((1735689600000 - 1734220800000 : Int) : ℚ) / 86400000⌉ ∧
        ⌈((1735689600000 - 1734220800000 : Int) : ℚ) / 86400000⌉ < 30) ∧
    (getStatus parseDateOnly 1734220800000 "2025-01-01" = Status.ACTIVE ↔
      30 ≤ ⌈((1735689600000 - 1734220800000 : Int) : ℚ) / 86400000⌉)) :=
  ⟨by decide,
   getStatus_classifies parseDateOnly 1734220800000 1735689600000 "2025-01-01" (by decide)⟩

/-- C2. For every instant `now`: an expiry date whose instant is `now` itself
has day difference 0 and is classified EXPIRING, not EXPIRED; an expiry date
whose instant is `now` minus exactly one day (86400000 ms) is classified
EXPIRED. -/
theorem getStatus_lower_boundary (toDate : String → Option Int) (now : Int)
    (today yesterday : String)
    (h0 : toDate today = some now) (h1 : toDate yesterday = some (now - 86400000)) :
    diffDays toDate now today = some 0 ∧
    getStatus toDate now today = Status.EXPIRING ∧
    getStatus toDate now today ≠ Status.EXPIRED ∧
    getStatus toDate now yesterday = Status.EXPIRED := by
  have d0 : diffDays toDate now today = some 0 :=
    diffDays_whole_days toDate now 0 today (by simpa using h0)
  have d1 : diffDays toDate now yesterday = some (-1) :=
    diffDays_whole_days toDate now (-1) yesterday (by rw [h1]; congr 1)
  rw [getStatus_of_diffDays toDate now 0 today d0,
    getStatus_of_diffDays toDate now (-1) yesterday d1]
  exact ⟨d0, by decide, by decide, by decide⟩

/-- Witness of C2 with the clock at `2025-01-01T00:00Z`. -/
theorem getStatus_lower_boundary_witness :
    (parseDateOnly "2025-01-01" = some 1735689600000 ∧
      parseDateOnly "2024-12-31" = some (1735689600000 - 86400000)) ∧
    diffDays parseDateOnly 1735689600000 "2025-01-01" = some 0 ∧
    getStatus parseDateOnly 1735689600000 "2025-01-01" = Status.EXPIRING ∧
    getStatus parseDateOnly 1735689600000 "2025-01-01" ≠ Status.EXPIRED ∧
    getStatus parseDateOnly 1735689600000 "2024-12-31" = Status.EXPIRED :=
  ⟨⟨by decide, by decide⟩,
   getStatus_lower_boundary parseDateOnly 1735689600000 "2025-01-01" "2024-12-31"
    (by decide) (by decide)⟩

/-- C3. For every instant `now`: an expiry date whose instant is `now` plus
exactly 29 days is classified EXPIRING, and one whose instant is `now` plus
exactly 30 days is classified ACTIVE. -/
theorem getStatus_upper_boundary (toDate : String → Option Int) (now : Int)
    (in29 in30 : String)
    (h29 : toDate in29 = some (now + 29 * 86400000))
    (h30 : toDate in30 = some (now + 30 * 86400000)) :
    diffDays toDate now in29 = some 29 ∧
    getStatus toDate now in29 = Status.EXPIRING ∧
    diffDays toDate now in30 = some 30 ∧
    getStatus toDate now in30 = Status.ACTIVE := by
  have d29 : diffDays toDate now in29 = some 29 :=
    diffDays_whole_days toDate now 29 in29 h29
  have d30 : diffDays toDate now in30 = some 30 :=
    diffDays_whole_days toDate now 30 in30 h30
  rw [getStatus_of_diffDays toDate now 29 in29 d29,
    getStatus_of_diffDays toDate now 30 in30 d30]
  exact ⟨d29, by decide, d30, by decide⟩

/-- Witness of C3 with the clock at `2025-01-01T00:00Z`. -/
theorem getStatus_upper_boundary_witness :
    (parseDateOnly "2025-01-30" = some (1735689600000 + 29 * 86400000) ∧
      parseDateOnly "2025-01-31" = some (1735689600000 + 30 * 86400000)) ∧
    diffDays parseDateOnly 1735689600000 "2025-01-30" = some 29 ∧
    getStatus parseDateOnly 1735689600000 "2025-01-30" = Status.EXPIRING ∧
    diffDays parseDateOnly 1735689600000 "2025-01-31" = some 30 ∧
    getStatus parseDateOnly 1735689600000 "2025-01-31" = Status.ACTIVE :=
  ⟨⟨by decide, by decide⟩,
   getStatus_upper_boundary parseDateOnly 1735689600000 "2025-01-30" "2025-01-31"
    (by decide) (by decide)⟩

/-- C4. The expiry date `2025-01-01` is midnight UTC of that day. Read at
`2025-02-01T00:00Z` its day difference is -31 and its status EXPIRED; read at
`2024-12-15T00:00Z` the day difference is 17 and the status EXPIRING; read at
`2024-11-01T00:00Z` the day difference is 61 and the status ACTIVE. -/
theorem getStatus_aws_example :
    parseDateOnly "2025-01-01" = some 1735689600000 ∧
    parseDateOnly "2025-02-01" = some 1738368000000 ∧
    parseDateOnly "2024-12-15" = some 1734220800000 ∧
    parseDateOnly "2024-11-01" = some 1730419200000 ∧
    diffDays parseDateOnly 1738368000000 "2025-01-01" = some (-31) ∧
    getStatus parseDateOnly 1738368000000 "2025-01-01" = Status.EXPIRED ∧
    diffDays parseDateOnly 1734220800000 "2025-01-01" = some 17 ∧
    getStatus parseDateOnly 1734220800000 "2025-01-01" = Status.EXPIRING ∧
    diffDays parseDateOnly 1730419200000 "2025-01-01" = some 61 ∧
    getStatus parseDateOnly 1730419200000 "2025-01-01" = Status.ACTIVE := by
  refine ⟨?_, ?_, ?_, ?_, ?_, ?_, ?_, ?_, ?_, ?_⟩ <;> decide

/-- C5, as stated, fails: two calls of `getStatus` with the same expiry date
`2025-01-01`, one made at `2024-11-01T00:00Z` and one at `2025-02-01T00:00Z`,
return ACTIVE and EXPIRED. -/
theorem getStatus_depends_on_clock :
    (getStatusCall parseDateOnly 1730419200000 emptyWorld "2025-01-01").1 = Status.ACTIVE ∧
    (getStatusCall parseDateOnly 1738368000000 emptyWorld "2025-01-01").1 = Status.EXPIRED ∧
    (getStatusCall parseDateOnly 1730419200000 emptyWorld "2025-01-01").1 ≠
      (getStatusCall parseDateOnly 1738368000000 emptyWorld "2025-01-01").1 := by
  refine ⟨?_, ?_, ?_⟩ <;> decide

/-- C5, amended. A call of `getStatus` is a function of its argument and of
the clock reading alone: two calls with the same expiry date made at the same
instant return the same status whatever the two vault states are, and a call
leaves the vault state as it found it. -/
theorem getStatus_pure_given_clock (toDate : String → Option Int) (now : Int)
    (w1 w2 : World) (expiryDate : String) :
    (getStatusCall toDate now w1 expiryDate).1 = (getStatusCall toDate now w2 expiryDate).1 ∧
    (getStatusCall toDate now w1 expiryDate).2 = w1 :=
  ⟨rfl, rfl⟩

/-! ## The vault controller: lemmas -/

/-- The guard of `handleSubmit` holds exactly when a required field is empty. -/
theorem missingDetails_iff (form : Form) :
    missingDetails form = true ↔ form.name = "" ∨ form.expiryDate = "" := by
  simp [missingDetails]

/-- The records of the store after an insertion by key. -/
theorem mem_insertByKey (c x : Certificate) (db : ObjectStore) :
    x ∈ insertByKey c db ↔ x = c ∨ x ∈ db := by
  induction db with
  | nil => simp [insertByKey]
  | cons r rs ih =>
    unfold insertByKey
    split
    · simp
    · simp only [List.mem_cons, ih]
      tauto

/-- A call of `dbAPI.add` that rejects leaves the object store as it was. -/
theorem dbAPI_add_error_db (host : HostOutcome) (db : ObjectStore) (cert : Certificate)
    (e : DbError) (h : (dbAPI.add host db cert).1 = Except.error e) :
    (dbAPI.add host db cert).2 = db := by
  cases host with
  | runs =>
    by_cases hk : hasKey db cert.id = true
    · simp [dbAPI.add, hk]
    · simp [dbAPI.add, hk] at h
  | openFails e1 => rfl
  | requestFails e1 => rfl
  | commitFails e1 =>
    by_cases hk : hasKey db cert.id = true
    · simp [dbAPI.add, hk]
    · simp [dbAPI.add, hk] at h

/-- A call of `dbAPI.add` adds at most the record it was given. -/
theorem dbAPI_add_mem (host : HostOutcome) (db : ObjectStore) (cert x : Certificate)
    (h : x ∈ (dbAPI.add host db cert).2) : x = cert ∨ x ∈ db := by
  cases host with
  | runs =>
    by_cases hk : hasKey db cert.id = true
    · simp only [dbAPI.add, hk, if_true] at h
      exact Or.inr h
    · simp only [dbAPI.add, hk] at h
      exact (mem_insertByKey cert x db).1 h
  | openFails e1 => exact Or.inr h
  | requestFails e1 => exact Or.inr h
  | commitFails e1 =>
    by_cases hk : hasKey db cert.id = true
    · simp only [dbAPI.add, hk, if_true] at h
      exact Or.inr h
    · simp only [dbAPI.add, hk] at h
      exact Or.inr h

/-- A call of `dbAPI.delete` that rejects leaves the object store as it was. -/
theorem dbAPI_delete_error_db (host : HostOutcome) (db : ObjectStore) (id : Int)
    (e : DbError) (_h : (dbAPI.delete host db id).1 = Except.error e) :
    (dbAPI.delete host db id).2 = db := by
  cases host with
  | runs => simp [dbAPI.delete] at _h
  | openFails e1 => rfl
  | requestFails e1 => rfl
  | commitFails e1 => rfl

/-! ## The vault controller: claims -/

/-- C6. `handleSubmit` calls `dbAPI.add` only when both `name` and
`expiryDate` of the form are non-empty. With an empty name or an empty expiry
date it shows the validation message and returns: no call of `dbAPI` is made,
the object store, the list and the form stay as they were. With both
non-empty its one call of `dbAPI` is the `add` of the record built from the
form. Hence a record that the call brings into the object store has a
non-empty name and a non-empty expiry date. -/
theorem handleSubmit_validates (host : HostOutcome) (now : Int) (w : World) :
    ((w.form.name = "" ∨ w.form.expiryDate = "") →
      (handleSubmit host now w).world.alerts = w.alerts ++ ["Please fill in details"] ∧
      (handleSubmit host now w).world.dbCalls = w.dbCalls ∧
      (handleSubmit host now w).world.db = w.db ∧
      (handleSubmit host now w).world.certificates = w.certificates ∧
      (handleSubmit host now w).world.form = w.form) ∧
    ((handleSubmit host now w).world.dbCalls ≠ w.dbCalls →
      (w.form.name ≠ "" ∧ w.form.expiryDate ≠ "") ∧
      (handleSubmit host now w).world.dbCalls = w.dbCalls ++ [DbCall.add (newCert w.form now)]) ∧
    (∀ cert ∈ (handleSubmit host now w).world.db, cert ∉ w.db →
      cert.name ≠ "" ∧ cert.expiryDate ≠ "") := by
  by_cases hm : missingDetails w.form = true
  · have hform := (missingDetails_iff w.form).1 hm
    refine ⟨fun _ => ?_, fun hne => ?_, fun cert hc hnot => ?_⟩
    · simp [handleSubmit, hm]
    · simp [handleSubmit, hm] at hne
    · simp only [handleSubmit, hm, if_true] at hc
      exact absurd hc hnot
  · have hform : ¬ (w.form.name = "" ∨ w.form.expiryDate = "") :=
      fun h => hm ((missingDetails_iff w.form).2 h)
    have hrun : (handleSubmit host now w).world =
        handleSubmitResume (newCert w.form now) (dbAPI.add host w.db (newCert w.form now)).1
          { w with db := (dbAPI.add host w.db (newCert w.form now)).2,
                   dbCalls := w.dbCalls ++ [DbCall.add (newCert w.form now)] } := by
      simp [handleSubmit, hm]
    have hcalls : (handleSubmit host now w).world.dbCalls =
        w.dbCalls ++ [DbCall.add (newCert w.form now)] := by
      rw [hrun]
      unfold handleSubmitResume
      split <;> rfl
    have hdb : (handleSubmit host now w).world.db =
        (dbAPI.add host w.db (newCert w.form now)).2 := by
      rw [hrun]
      unfold handleSubmitResume
      split <;> rfl
    refine ⟨fun h => absurd h hform, fun _ => ⟨?_, hcalls⟩, fun cert hc hnot => ?_⟩
    · exact ⟨fun h => hform (Or.inl h), fun h => hform (Or.inr h)⟩
    · rw [hdb] at hc
      rcases dbAPI_add_mem host w.db (newCert w.form now) cert hc with h | h
      · subst h
        exact ⟨fun h => hform (Or.inl h), fun h => hform (Or.inr h)⟩
      · exact absurd h hnot

/-- Witness of C6: a submission of the empty form, and a valid submission
whose call of `dbAPI.add` is made. -/
theorem handleSubmit_validates_witness :
    (emptyWorld.form.name = "" ∨ emptyWorld.form.expiryDate = "") ∧
    (handleSubmit HostOutcome.runs 7 awsWorld).world.dbCalls ≠ awsWorld.dbCalls ∧
    (handleSubmit HostOutcome.runs 7 emptyWorld).world.alerts = ["Please fill in details"] ∧
    (handleSubmit HostOutcome.runs 7 emptyWorld).world.dbCalls = [] ∧
    (handleSubmit HostOutcome.runs 7 awsWorld).world.dbCalls =
      [DbCall.add (newCert awsForm 7)] :=
  ⟨Or.inl rfl, by decide,
   ((handleSubmit_validates HostOutcome.runs 7 emptyWorld).1 (Or.inl rfl)).1,
   ((handleSubmit_validates HostOutcome.runs 7 emptyWorld).1 (Or.inl rfl)).2.1,
   ((handleSubmit_validates HostOutcome.runs 7 awsWorld).2.1 (by decide)).2⟩

/-- C7. For every list and every valid submission whose `dbAPI.add` succeeds,
the list after `handleSubmit` is the list before it with the new record
appended as its last element: the earlier records keep their positions
unchanged and the length grows by exactly one. The same holds of the updater
itself on whatever list is current when the `add` settles. -/
theorem handleSubmit_appends (host : HostOutcome) (now : Int) (w : World)
    (hvalid : w.form.name ≠ "" ∧ w.form.expiryDate ≠ "")
    (hok : ∃ c, (dbAPI.add host w.db (newCert w.form now)).1 = Except.ok c) :
    (handleSubmit host now w).world.certificates = w.certificates ++ [newCert w.form now] ∧
    (handleSubmit host now w).world.certificates.length = w.certificates.length + 1 ∧
    (handleSubmit host now w).world.certificates.take w.certificates.length = w.certificates ∧
    (handleSubmit host now w).world.certificates.getLast? = some (newCert w.form now) ∧
    (∀ i, i < w.certificates.length →
      (handleSubmit host now w).world.certificates[i]? = w.certificates[i]?) ∧
    (∀ (cert c : Certificate) (w1 : World),
      (handleSubmitResume cert (Except.ok c) w1).certificates = w1.certificates ++ [cert]) := by
  obtain ⟨c, hc⟩ := hok
  have hm : ¬ missingDetails w.form = true := fun h =>
    ((missingDetails_iff w.form).1 h).elim hvalid.1 hvalid.2
  have happ : (handleSubmit host now w).world.certificates =
      w.certificates ++ [newCert w.form now] := by
    simp [handleSubmit, hm, handleSubmitResume, hc]
  rw [happ]
  refine ⟨rfl, by simp, by simp, by simp, fun i hi => ?_, fun _ _ _ => rfl⟩
  exact List.getElem?_append_left hi

/-- Witness of C7: the submission `AWS SA` made at clock reading 7 into the
example vault. -/
theorem handleSubmit_appends_witness :
    (awsWorld.form.name ≠ "" ∧ awsWorld.form.expiryDate ≠ "") ∧
    (dbAPI.add HostOutcome.runs awsWorld.db (newCert awsWorld.form 7)).1 =
      Except.ok (newCert awsWorld.form 7) ∧
    (handleSubmit HostOutcome.runs 7 awsWorld).world.certificates =
      [newCert awsForm 5, newCert awsForm 7] :=
  ⟨by decide, rfl,
   (handleSubmit_appends HostOutcome.runs 7 awsWorld (by decide) ⟨_, rfl⟩).1⟩

/-- C8. For every list and every submission, if the call of `dbAPI.add` for the
submitted record fails, then after `handleSubmit` the list is exactly the list
before it, of the same length, and the object store is unchanged; for a valid
submission the failure is shown with `alert` and logged with `console.error`. -/
theorem handleSubmit_add_fails (host : HostOutcome) (now : Int) (w : World) (e : DbError)
    (hfail : (dbAPI.add host w.db (newCert w.form now)).1 = Except.error e) :
    (handleSubmit host now w).world.certificates = w.certificates ∧
    (handleSubmit host now w).world.certificates.length = w.certificates.length ∧
    (handleSubmit host now w).world.db = w.db ∧
    (w.form.name ≠ "" ∧ w.form.expiryDate ≠ "" →
      (handleSubmit host now w).world.alerts =
        w.alerts ++ ["Failed to save certificate. Database error."] ∧
      (handleSubmit host now w).world.console =
        w.console ++ [{ label := none, error := e }] ∧
      (handleSubmit host now w).world.form = w.form) := by
  have hdb := dbAPI_add_error_db host w.db (newCert w.form now) e hfail
  by_cases hm : missingDetails w.form = true
  · have hform := (missingDetails_iff w.form).1 hm
    refine ⟨?_, ?_, ?_, fun hv => absurd hform (by tauto)⟩ <;> simp [handleSubmit, hm]
  · refine ⟨?_, ?_, ?_, fun _ => ⟨?_, ?_, ?_⟩⟩ <;>
      simp [handleSubmit, hm, handleSubmitResume, hfail, hdb]

/-- Witness of C8: the submission `AWS SA` repeated at the clock reading 5 of
the stored record, which the store rejects with a `ConstraintError`. -/
theorem handleSubmit_add_fails_witness :
    (dbAPI.add HostOutcome.runs awsWorld.db (newCert awsWorld.form 5)).1 =
      Except.error DbError.ConstraintError ∧
    (awsWorld.form.name ≠ "" ∧ awsWorld.form.expiryDate ≠ "") ∧
    (handleSubmit HostOutcome.runs 5 awsWorld).world.certificates = awsWorld.certificates ∧
    (handleSubmit HostOutcome.runs 5 awsWorld).world.alerts =
      awsWorld.alerts ++ ["Failed to save certificate. Database error."] :=
  ⟨rfl, by decide,
   (handleSubmit_add_fails HostOutcome.runs 5 awsWorld DbError.ConstraintError rfl).1,
   ((handleSubmit_add_fails HostOutcome.runs 5 awsWorld DbError.ConstraintError rfl).2.2.2
      (by decide)).1⟩

/-- C9. For every list and every id, when `dbAPI.delete` succeeds the list
after `handleDelete` is the list before it with every record of that id
filtered out: no remaining record has the id, every record with another id
remains, and the remaining records are in their original relative order. -/
theorem handleDelete_filters (host : HostOutcome) (id : Int) (w : World)
    (hok : ∃ r, (dbAPI.delete host w.db id).1 = Except.ok r) :
    (handleDelete host id w).world.certificates =
      w.certificates.filter (fun cert => decide (cert.id ≠ id)) ∧
    (∀ cert ∈ (handleDelete host id w).world.certificates, cert.id ≠ id) ∧
    (∀ cert ∈ w.certificates, cert.id ≠ id →
      cert ∈ (handleDelete host id w).world.certificates) ∧
    List.Sublist (handleDelete host id w).world.certificates w.certificates := by
  obtain ⟨r, hr⟩ := hok
  have hflt : (handleDelete host id w).world.certificates =
      w.certificates.filter (fun cert => decide (cert.id ≠ id)) := by
    simp only [handleDelete, handleDeleteResume, hr]
  rw [hflt]
  refine ⟨rfl, fun cert hc => ?_, fun cert hc hne => ?_, List.filter_sublist _⟩
  · simpa using (List.mem_filter.1 hc).2
  · exact List.mem_filter.2 ⟨hc, by simpa using hne⟩

/-- Witness of C9: the stored record of id 5 is deleted from the example
vault. -/
theorem handleDelete_filters_witness :
    (dbAPI.delete HostOutcome.runs awsWorld.db 5).1 = Except.ok 5 ∧
    (handleDelete HostOutcome.runs 5 awsWorld).world.certificates =
      awsWorld.certificates.filter (fun cert => decide (cert.id ≠ 5)) :=
  ⟨rfl, (handleDelete_filters HostOutcome.runs 5 awsWorld ⟨5, rfl⟩).1⟩

/-- C10, as stated, fails: in the example vault a `dbAPI.delete` that the host
makes fail is not reported to the caller of `handleDelete`. The promise of the
handler is fulfilled, as it is after a successful delete, and no message is
shown with `alert`; the error only reaches `console.error`. -/
theorem handleDelete_failure_not_returned :
    (dbAPI.delete (HostOutcome.requestFails (DbError.OtherError "UnknownError"))
      awsWorld.db 5).1 = Except.error (DbError.OtherError "UnknownError") ∧
    (handleDelete (HostOutcome.requestFails (DbError.OtherError "UnknownError"))
      5 awsWorld).settled = Settled.fulfilled ∧
    (handleDelete (HostOutcome.requestFails (DbError.OtherError "UnknownError"))
      5 awsWorld).settled = (handleDelete HostOutcome.runs 5 awsWorld).settled ∧
    (handleDelete (HostOutcome.requestFails (DbError.OtherError "UnknownError"))
      5 awsWorld).world.alerts = awsWorld.alerts := by
  exact ⟨rfl, rfl, rfl, rfl⟩

/-- C10, amended. For every list and every id, if `dbAPI.delete` fails then
`handleDelete` leaves the list exactly as it was (the record is not removed
beforehand) and the object store unchanged, and the error is written with
`console.error` under the text `Failed to delete`; the handler then ends
normally: its promise is fulfilled and no message is shown with `alert`. -/
theorem handleDelete_failure_logged (host : HostOutcome) (id : Int) (w : World) (e : DbError)
    (hfail : (dbAPI.delete host w.db id).1 = Except.error e) :
    (handleDelete host id w).world.certificates = w.certificates ∧
    (handleDelete host id w).world.db = w.db ∧
    (handleDelete host id w).world.console =
      w.console ++ [{ label := some "Failed to delete", error := e }] ∧
    (handleDelete host id w).world.alerts = w.alerts ∧
    (handleDelete host id w).settled = Settled.fulfilled := by
  have hdb := dbAPI_delete_error_db host w.db id e hfail
  refine ⟨?_, ?_, ?_, ?_, rfl⟩ <;> simp [handleDelete, handleDeleteResume, hfail, hdb]

/-- Witness of C10 amended: the open of the database fails while the record
of id 5 of the example vault is being deleted. -/
theorem handleDelete_failure_logged_witness :
    (dbAPI.delete (HostOutcome.openFails (DbError.OtherError "UnknownError"))
      awsWorld.db 5).1 = Except.error (DbError.OtherError "UnknownError") ∧
    (handleDelete (HostOutcome.openFails (DbError.OtherError "UnknownError"))
      5 awsWorld).world.certificates = awsWorld.certificates :=
  ⟨rfl,
   (handleDelete_failure_logged (HostOutcome.openFails (DbError.OtherError "UnknownError"))
      5 awsWorld (DbError.OtherError "UnknownError") rfl).1⟩

/-! ## Store and handlers: further lemmas -/

/-- The guard of `handleSubmit` on a form with both required fields. -/
theorem missingDetails_of_valid (form : Form)
    (h : form.name ≠ "" ∧ form.expiryDate ≠ "") : missingDetails form = false := by
  simp [missingDetails, h.1, h.2]

/-- The state after `handleSubmit` on a form with both required fields. -/
theorem handleSubmit_world_of_valid (host : HostOutcome) (now : Int) (w : World)
    (h : missingDetails w.form = false) :
    (handleSubmit host now w).world =
      handleSubmitResume (newCert w.form now) (dbAPI.add host w.db (newCert w.form now)).1
        { w with db := (dbAPI.add host w.db (newCert w.form now)).2,
                 dbCalls := w.dbCalls ++ [DbCall.add (newCert w.form now)] } := by
  simp [handleSubmit, h]

/-- The state after `handleSubmit` on a form that lacks a required field. -/
theorem handleSubmit_world_of_missing (host : HostOutcome) (now : Int) (w : World)
    (h : missingDetails w.form = true) :
    (handleSubmit host now w).world =
      { w with alerts := w.alerts ++ ["Please fill in details"] } := by
  simp [handleSubmit, h]

/-- The rest of `handleSubmit` leaves the object store as the request left it. -/
theorem handleSubmitResume_db (cert : Certificate) (r : Except DbError Certificate)
    (w : World) : (handleSubmitResume cert r w).db = w.db := by
  cases r <;> rfl

/-- The rest of `handleDelete` leaves the object store as the request left it. -/
theorem handleDeleteResume_db (captured : List Certificate) (id : Int)
    (r : Except DbError Int) (w : World) :
    (handleDeleteResume captured id r w).db = w.db := by
  cases r <;> rfl

/-- The object store after `handleDelete`. -/
theorem handleDelete_db (host : HostOutcome) (id : Int) (w : World) :
    (handleDelete host id w).world.db = (dbAPI.delete host w.db id).2 := by
  simp [handleDelete, handleDeleteResume_db]

/-- A key is present exactly when some record carries it. -/
theorem hasKey_iff (db : ObjectStore) (id : Int) :
    hasKey db id = true ↔ ∃ r ∈ db, r.id = id := by
  simp [hasKey]

/-- A call of `dbAPI.add` that resolves was made on a store without the key
and resolves with the record given; the store then holds the record inserted
when the host commits the transaction, and is as it was when the host does
not. -/
theorem dbAPI_add_ok (host : HostOutcome) (db : ObjectStore) (cert c : Certificate)
    (h : (dbAPI.add host db cert).1 = Except.ok c) :
    hasKey db cert.id = false ∧ c = cert ∧
    (dbAPI.add host db cert).2 = if host.commits then insertByKey cert db else db := by
  cases host with
  | runs =>
    by_cases hk : hasKey db cert.id = true
    · simp [dbAPI.add, hk] at h
    · have hk1 : hasKey db cert.id = false := by simpa using hk
      simp only [dbAPI.add, hk1] at h
      injection h with h
      exact ⟨hk1, h.symm, by simp [dbAPI.add, hk1, HostOutcome.commits]⟩
  | openFails e1 => simp [dbAPI.add] at h
  | requestFails e1 => simp [dbAPI.add] at h
  | commitFails e1 =>
    by_cases hk : hasKey db cert.id = true
    · simp [dbAPI.add, hk] at h
    · have hk1 : hasKey db cert.id = false := by simpa using hk
      simp only [dbAPI.add, hk1] at h
      injection h with h
      exact ⟨hk1, h.symm, by simp [dbAPI.add, hk1, HostOutcome.commits]⟩

/-- A call of `dbAPI.delete` that resolves resolves with the key given; the
store is then without the key when the host commits the transaction, and is as
it was when the host does not. -/
theorem dbAPI_delete_ok (host : HostOutcome) (db : ObjectStore) (id r : Int)
    (h : (dbAPI.delete host db id).1 = Except.ok r) :
    r = id ∧
    (dbAPI.delete host db id).2 = if host.commits then deleteKey db id else db := by
  cases host with
  | runs =>
    simp only [dbAPI.delete] at h
    injection h with h
    exact ⟨h.symm, by simp [dbAPI.delete, HostOutcome.commits]⟩
  | openFails e1 => simp [dbAPI.delete] at h
  | requestFails e1 => simp [dbAPI.delete] at h
  | commitFails e1 =>
    simp only [dbAPI.delete] at h
    injection h with h
    exact ⟨h.symm, by simp [dbAPI.delete, HostOutcome.commits]⟩

/-- A call of `dbAPI.delete` adds no record to the store. -/
theorem dbAPI_delete_mem (host : HostOutcome) (db : ObjectStore) (id : Int) (x : Certificate)
    (h : x ∈ (dbAPI.delete host db id).2) : x ∈ db := by
  cases host with
  | runs => exact (List.mem_filter.1 h).1
  | openFails e1 => exact h
  | requestFails e1 => exact h
  | commitFails e1 => exact h

/-- The store after an insertion by key holds the old records and the new one. -/
theorem insertByKey_perm (c : Certificate) (db : ObjectStore) :
    List.Perm (insertByKey c db) (c :: db) := by
  induction db with
  | nil => exact List.Perm.refl _
  | cons r rs ih =>
    unfold insertByKey
    split
    · exact List.Perm.refl _
    · exact (List.Perm.cons r ih).trans (List.Perm.swap c r rs)

/-- Choosing a file changes neither the list nor the object store. -/
theorem chooseFile_frame (file : Option File) (result : Option String) (w : World) :
    (chooseFile file result w).certificates = w.certificates ∧
    (chooseFile file result w).db = w.db := by
  cases file with
  | none => exact ⟨rfl, rfl⟩
  | some f =>
    by_cases hs : f.size > 100 * 1024 * 1024 <;>
      simp [chooseFile, handleFileChange, hs, onloadend]

/-- Typing into a field changes neither the list nor the object store. -/
theorem handleChange_frame (field : Field) (value : String) (w : World) :
    (handleChange field value w).certificates = w.certificates ∧
    (handleChange field value w).db = w.db := by
  cases field <;> exact ⟨rfl, rfl⟩

/-- The object store after `handleSubmit`: untouched when a required field is
missing, and otherwise as `dbAPI.add` left it. -/
theorem handleSubmit_db (host : HostOutcome) (now : Int) (w : World) :
    (handleSubmit host now w).world.db =
      if missingDetails w.form then w.db
      else (dbAPI.add host w.db (newCert w.form now)).2 := by
  by_cases hm : missingDetails w.form = true
  · rw [handleSubmit_world_of_missing host now w hm]
    simp [hm]
  · have hm1 : missingDetails w.form = false := by simpa using hm
    rw [handleSubmit_world_of_valid host now w hm1, handleSubmitResume_db]
    simp [hm1]

/-- One event run to its end, whose store request the host commits if it lets
it run, keeps the list a rearrangement of the records of the object store. -/
theorem runAction_perm (w : World) (a : Action) (ha : a.commits = true)
    (h : List.Perm w.certificates w.db) :
    List.Perm (runAction w a).certificates (runAction w a).db := by
  cases a with
  | change field value =>
    simp only [runAction, (handleChange_frame field value w).1,
      (handleChange_frame field value w).2]
    exact h
  | file chosen result =>
    simp only [runAction, (chooseFile_frame chosen result w).1,
      (chooseFile_frame chosen result w).2]
    exact h
  | submit host now =>
    have hcommit : host.commits = true := ha
    simp only [runAction]
    by_cases hm : missingDetails w.form = true
    · rw [handleSubmit_world_of_missing host now w hm]
      exact h
    · have hm1 : missingDetails w.form = false := by simpa using hm
      rw [handleSubmit_world_of_valid host now w hm1]
      cases hr : (dbAPI.add host w.db (newCert w.form now)).1 with
      | error e =>
        simp only [handleSubmitResume, dbAPI_add_error_db host w.db _ e hr]
        exact h
      | ok c =>
        simp only [handleSubmitResume, (dbAPI_add_ok host w.db _ c hr).2.2, hcommit, if_true]
        exact (List.perm_append_singleton _ _).trans
          ((List.Perm.cons _ h).trans (insertByKey_perm _ _).symm)
  | delete host id =>
    have hcommit : host.commits = true := ha
    simp only [runAction, handleDelete]
    cases hr : (dbAPI.delete host w.db id).1 with
    | error e =>
      simp only [handleDeleteResume, dbAPI_delete_error_db host w.db id e hr]
      exact h
    | ok r =>
      simp only [handleDeleteResume, (dbAPI_delete_ok host w.db id r hr).2, hcommit, if_true,
        deleteKey]
      exact h.filter _

/-- A sequence of events, each run to its end and each store request
committed if let run, keeps the list a rearrangement of the records of the
object store. -/
theorem runActions_perm (acts : List Action) (w : World)
    (ha : ∀ a ∈ acts, a.commits = true)
    (h : List.Perm w.certificates w.db) :
    List.Perm (runActions acts w).certificates (runActions acts w).db := by
  induction acts generalizing w with
  | nil => exact h
  | cons a rest ih =>
    exact ih (runAction w a) (fun x hx => ha x (List.mem_cons_of_mem _ hx))
      (runAction_perm w a (ha a (List.mem_cons_self _ _)) h)

/-- One event that is not a submission at the clock reading `id` brings no
record of key `id` into the object store. -/
theorem runAction_no_key (w : World) (a : Action) (id : Int)
    (ha : ∀ host now, a = Action.submit host now → now ≠ id)
    (h : ∀ r ∈ w.db, r.id ≠ id) : ∀ r ∈ (runAction w a).db, r.id ≠ id := by
  cases a with
  | change field value =>
    simpa only [runAction, (handleChange_frame field value w).2] using h
  | file chosen result =>
    simpa only [runAction, (chooseFile_frame chosen result w).2] using h
  | submit host now =>
    intro r hr
    simp only [runAction, handleSubmit_db] at hr
    by_cases hm : missingDetails w.form = true
    · simp only [hm, if_true] at hr
      exact h r hr
    · simp only [hm] at hr
      rcases dbAPI_add_mem host w.db _ r hr with hnew | hold
      · rw [hnew]
        exact ha host now rfl
      · exact h r hold
  | delete host key =>
    intro r hr
    simp only [runAction, handleDelete_db] at hr
    exact h r (dbAPI_delete_mem host w.db key r hr)

/-- A sequence of events without a submission at the clock reading `id`
brings no record of key `id` into the object store. -/
theorem runActions_no_key (acts : List Action) (w : World) (id : Int)
    (ha : ∀ host now, Action.submit host now ∈ acts → now ≠ id)
    (h : ∀ r ∈ w.db, r.id ≠ id) : ∀ r ∈ (runActions acts w).db, r.id ≠ id := by
  induction acts generalizing w with
  | nil => exact h
  | cons a rest ih =>
    refine ih (runAction w a) (fun host now hmem => ha host now (List.mem_cons_of_mem _ hmem)) ?_
    exact runAction_no_key w a id
      (fun host now heq => ha host now (heq ▸ List.mem_cons_self _ _)) h

/-- A successful load on mount sets the list to the records of the store. -/
theorem mountEffect_runs (db : ObjectStore) :
    (mountEffect HostOutcome.runs (freshWorld db)).certificates = db ∧
    (mountEffect HostOutcome.runs (freshWorld db)).db = db :=
  ⟨rfl, rfl⟩

/-! ## Identifiers and attachments: claims -/

/-- C11 fails on the code. The id of a new record is the clock reading
`Date.now()`, so two submissions made at the same reading are given the same
id whatever their fields. Evaluated on the empty vault: the record `AWS SA` is
created at reading 7, the form is filled again with `Azure Admin` and
submitted at the same reading 7; both calls of `dbAPI.add` carry id 7, the
second is rejected by the store and its record is not saved. -/
theorem handleSubmit_same_tick_same_id :
    (∀ (f g : Form) (now : Int), (newCert f now).id = (newCert g now).id) ∧
    (handleSubmit HostOutcome.runs 7
      { (handleSubmit HostOutcome.runs 7 { emptyWorld with form := awsForm }).world with
        form := azureForm }).world.dbCalls =
      [DbCall.add (newCert awsForm 7), DbCall.add (newCert azureForm 7)] ∧
    (newCert awsForm 7).id = (newCert azureForm 7).id ∧
    (handleSubmit HostOutcome.runs 7
      { (handleSubmit HostOutcome.runs 7 { emptyWorld with form := awsForm }).world with
        form := azureForm }).world.certificates = [newCert awsForm 7] ∧
    (handleSubmit HostOutcome.runs 7
      { (handleSubmit HostOutcome.runs 7 { emptyWorld with form := awsForm }).world with
        form := azureForm }).world.db = [newCert awsForm 7] ∧
    (handleSubmit HostOutcome.runs 7
      { (handleSubmit HostOutcome.runs 7 { emptyWorld with form := awsForm }).world with
        form := azureForm }).world.console =
      [{ label := none, error := DbError.ConstraintError }] := by
  refine ⟨fun _ _ _ => rfl, ?_, rfl, ?_, ?_, ?_⟩ <;> decide

/-- C12. The file input rejects a chosen file exactly when its size is greater
than 100 MiB, which is 104857600 bytes. A rejected file only raises the
message: no read is started and the form is unchanged, also after the event
has run to its end. An accepted file is handed to the reader, no message is
shown, and when the read ends the image of the form is the result of the read.
A file of 104857601 bytes is rejected and one of 104857600 bytes accepted. -/
theorem handleFileChange_size_cap (f : File) (result : Option String) (w : World) :
    (100 * 1024 * 1024 : Nat) = 104857600 ∧
    ((handleFileChange (some f) w).reading = none ↔ 104857600 < f.size) ∧
    (104857600 < f.size →
      (handleFileChange (some f) w).world =
        { w with alerts := w.alerts ++
          ["File too large! Please choose an image under 100MB."] } ∧
      (handleFileChange (some f) w).world.form = w.form ∧
      (chooseFile (some f) result w).form = w.form ∧
      (chooseFile (some f) result w).certificates = w.certificates) ∧
    (f.size ≤ 104857600 →
      (handleFileChange (some f) w).reading = some f ∧
      (handleFileChange (some f) w).world = w ∧
      (chooseFile (some f) result w).form = { w.form with image := result }) ∧
    (handleFileChange (some { name := f.name, size := 104857601 }) w).reading = none ∧
    (handleFileChange (some { name := f.name, size := 104857600 }) w).reading =
      some { name := f.name, size := 104857600 } := by
  refine ⟨by norm_num, ?_, fun h => ?_, fun h => ?_, ?_, ?_⟩
  · by_cases hs : f.size > 100 * 1024 * 1024
    · constructor
      · intro _
        omega
      · intro _
        simp [handleFileChange, hs]
    · constructor
      · intro hc
        simp [handleFileChange, hs] at hc
      · intro hc
        exact absurd hc (by omega)
  · have hs : f.size > 100 * 1024 * 1024 := by omega
    simp [chooseFile, handleFileChange, hs]
  · have hs : ¬ f.size > 100 * 1024 * 1024 := by omega
    simp [chooseFile, handleFileChange, hs, onloadend]
  · simp [handleFileChange]
  · simp [handleFileChange]

/-- Witness of C12: a file of 104857601 bytes and a file of 104857600 bytes
chosen on the example vault. -/
theorem handleFileChange_size_cap_witness :
    (104857600 < (File.mk "scan.png" 104857601).size ∧
      (File.mk "scan.png" 104857600).size ≤ 104857600) ∧
    (handleFileChange (some (File.mk "scan.png" 104857601)) awsWorld).world.form =
      awsWorld.form ∧
    (handleFileChange (some (File.mk "scan.png" 104857600)) awsWorld).reading =
      some (File.mk "scan.png" 104857600) :=
  ⟨⟨by decide, by decide⟩,
   ((handleFileChange_size_cap (File.mk "scan.png" 104857601) none awsWorld).2.2.1
      (by decide)).2.1,
   ((handleFileChange_size_cap (File.mk "scan.png" 104857600) none awsWorld).2.2.2.1
      (by decide)).1⟩

/-- C13, as stated, fails: on the example vault a file of 2048 bytes is
accepted and its read fails. No message is shown and nothing is logged; the
form keeps its fields with a `null` image, and the submission that follows is
not aborted: its record is stored and listed, without an image. -/
theorem read_failure_not_reported :
    (handleFileChange (some (File.mk "scan.png" 2048)) awsWorld).reading =
      some (File.mk "scan.png" 2048) ∧
    (chooseFile (some (File.mk "scan.png" 2048)) none awsWorld).alerts = awsWorld.alerts ∧
    (chooseFile (some (File.mk "scan.png" 2048)) none awsWorld).console = awsWorld.console ∧
    (chooseFile (some (File.mk "scan.png" 2048)) none awsWorld).form = awsForm ∧
    (handleSubmit HostOutcome.runs 7
      (chooseFile (some (File.mk "scan.png" 2048)) none awsWorld)).world.db =
      [newCert awsForm 5, newCert awsForm 7] ∧
    (handleSubmit HostOutcome.runs 7
      (chooseFile (some (File.mk "scan.png" 2048)) none awsWorld)).world.certificates =
      [newCert awsForm 5, newCert awsForm 7] ∧
    (newCert awsForm 7).image = none := by
  refine ⟨?_, ?_, ?_, ?_, ?_, ?_, ?_⟩ <;> decide

/-- C13, amended. When the read of an accepted file fails, the file input
reports no error: no message is shown and nothing is logged, the list and the
store are unchanged, and the image of the form is `null`, never a part of an
encoding. A submission that then uses the form is not aborted: with a name and
an expiry date and a successful `dbAPI.add`, its record is listed with a
`null` image, and stored with it once the host has committed the write. -/
theorem read_failure_gives_null_image (f : File) (w : World) (host : HostOutcome) (now : Int)
    (hacc : f.size ≤ 104857600) :
    (chooseFile (some f) none w).form = { w.form with image := none } ∧
    (chooseFile (some f) none w).alerts = w.alerts ∧
    (chooseFile (some f) none w).console = w.console ∧
    (chooseFile (some f) none w).certificates = w.certificates ∧
    (chooseFile (some f) none w).db = w.db ∧
    (w.form.name ≠ "" ∧ w.form.expiryDate ≠ "" →
      (∃ c, (dbAPI.add host w.db (newCert { w.form with image := none } now)).1 =
        Except.ok c) →
      (host.commits = true →
        newCert { w.form with image := none } now ∈
          (handleSubmit host now (chooseFile (some f) none w)).world.db) ∧
      newCert { w.form with image := none } now ∈
        (handleSubmit host now (chooseFile (some f) none w)).world.certificates ∧
      (newCert { w.form with image := none } now).image = none) := by
  have hs : ¬ f.size > 100 * 1024 * 1024 := by omega
  have hform : (chooseFile (some f) none w).form = { w.form with image := none } := by
    simp [chooseFile, handleFileChange, hs, onloadend]
  have hdb : (chooseFile (some f) none w).db = w.db := by
    simp [chooseFile, handleFileChange, hs, onloadend]
  have hlist : (chooseFile (some f) none w).certificates = w.certificates := by
    simp [chooseFile, handleFileChange, hs, onloadend]
  refine ⟨hform, ?_, ?_, hlist, hdb, fun hv hok => ?_⟩
  · simp [chooseFile, handleFileChange, hs, onloadend]
  · simp [chooseFile, handleFileChange, hs, onloadend]
  · obtain ⟨c, hc⟩ := hok
    have hm : missingDetails (chooseFile (some f) none w).form = false := by
      rw [hform]
      exact missingDetails_of_valid _ hv
    have hadd := dbAPI_add_ok host w.db _ c hc
    rw [handleSubmit_world_of_valid host now _ hm, hform, hdb]
    refine ⟨fun hcommit => ?_, ?_, rfl⟩
    · rw [handleSubmitResume_db]
      show _ ∈ (dbAPI.add host w.db _).2
      rw [hadd.2.2, hcommit, if_pos rfl]
      exact (mem_insertByKey _ _ _).2 (Or.inl rfl)
    · rw [hc]
      simp [handleSubmitResume]

/-- Witness of C13 amended: the read of a file of 2048 bytes fails on the
example vault and the form is submitted at clock reading 7. -/
theorem read_failure_gives_null_image_witness :
    (File.mk "scan.png" 2048).size ≤ 104857600 ∧
    (awsWorld.form.name ≠ "" ∧ awsWorld.form.expiryDate ≠ "") ∧
    (dbAPI.add HostOutcome.runs awsWorld.db
      (newCert { awsWorld.form with image := none } 7)).1 =
      Except.ok (newCert { awsWorld.form with image := none } 7) ∧
    HostOutcome.runs.commits = true ∧
    newCert { awsWorld.form with image := none } 7 ∈
      (handleSubmit HostOutcome.runs 7
        (chooseFile (some (File.mk "scan.png" 2048)) none awsWorld)).world.db :=
  ⟨by decide, by decide, rfl, rfl,
   ((read_failure_gives_null_image (File.mk "scan.png" 2048) awsWorld HostOutcome.runs 7
      (by decide)).2.2.2.2.2 (by decide) ⟨_, rfl⟩).1 rfl⟩

/-! ## List and store: claims -/

/-- C14, as stated, fails: after a successful load on mount over the empty
store the form is filled and submitted at clock reading 7; the request of
`dbAPI.add` succeeds, so its promise resolves, and the transaction then aborts
at commit. The handler has run to its end with no message and no log: the list
shows the record and the store does not hold it. -/
theorem rolled_back_add_is_listed :
    (dbAPI.add (HostOutcome.commitFails (DbError.OtherError "QuotaExceededError")) []
      (newCert awsForm 7)).1 = Except.ok (newCert awsForm 7) ∧
    (runActions
      [Action.change Field.name "AWS SA", Action.change Field.issuer "Amazon",
        Action.change Field.expiryDate "2025-01-01",
        Action.submit (HostOutcome.commitFails (DbError.OtherError "QuotaExceededError")) 7]
      (mountEffect HostOutcome.runs (freshWorld []))).certificates = [newCert awsForm 7] ∧
    (runActions
      [Action.change Field.name "AWS SA", Action.change Field.issuer "Amazon",
        Action.change Field.expiryDate "2025-01-01",
        Action.submit (HostOutcome.commitFails (DbError.OtherError "QuotaExceededError")) 7]
      (mountEffect HostOutcome.runs (freshWorld []))).db = [] ∧
    (runActions
      [Action.change Field.name "AWS SA", Action.change Field.issuer "Amazon",
        Action.change Field.expiryDate "2025-01-01",
        Action.submit (HostOutcome.commitFails (DbError.OtherError "QuotaExceededError")) 7]
      (mountEffect HostOutcome.runs (freshWorld []))).alerts = [] ∧
    (runActions
      [Action.change Field.name "AWS SA", Action.change Field.issuer "Amazon",
        Action.change Field.expiryDate "2025-01-01",
        Action.submit (HostOutcome.commitFails (DbError.OtherError "QuotaExceededError")) 7]
      (mountEffect HostOutcome.runs (freshWorld []))).console = [] := by
  refine ⟨rfl, ?_, ?_, ?_, ?_⟩ <;> decide

/-- C14, amended. Start from a successful load on mount over any object store
and let any events follow, each handler run to its end before the next, the
host committing the transaction of every store request that it lets run. After
every one of them, whether its store request succeeded or failed, the list
holds exactly the records of the object store: each is a rearrangement of the
other. -/
theorem sequential_list_matches_store (db0 : ObjectStore) (acts : List Action) (n : Nat)
    (hcommit : ∀ a ∈ acts, a.commits = true) :
    List.Perm
      (runActions (acts.take n) (mountEffect HostOutcome.runs (freshWorld db0))).certificates
      (runActions (acts.take n) (mountEffect HostOutcome.runs (freshWorld db0))).db ∧
    (∀ c, c ∈ (runActions (acts.take n)
        (mountEffect HostOutcome.runs (freshWorld db0))).certificates ↔
      c ∈ (runActions (acts.take n) (mountEffect HostOutcome.runs (freshWorld db0))).db) := by
  have hperm := runActions_perm (acts.take n) (mountEffect HostOutcome.runs (freshWorld db0))
    (fun a ha => hcommit a (List.mem_of_mem_take ha))
    (by rw [(mountEffect_runs db0).1, (mountEffect_runs db0).2])
  exact ⟨hperm, fun c => hperm.mem_iff⟩

/-- Witness of C14 amended: over the example store the form is filled, a
submission at reading 7 succeeds, record 5 is deleted and a submission at
reading 9 fails at its request. -/
theorem sequential_list_matches_store_witness :
    (∀ a ∈ [Action.change Field.name "Azure Admin",
        Action.change Field.expiryDate "2026-06-30", Action.submit HostOutcome.runs 7,
        Action.delete HostOutcome.runs 5,
        Action.submit (HostOutcome.requestFails (DbError.OtherError "UnknownError")) 9],
      a.commits = true) ∧
    List.Perm
      (runActions (List.take 5 [Action.change Field.name "Azure Admin",
        Action.change Field.expiryDate "2026-06-30", Action.submit HostOutcome.runs 7,
        Action.delete HostOutcome.runs 5,
        Action.submit (HostOutcome.requestFails (DbError.OtherError "UnknownError")) 9])
        (mountEffect HostOutcome.runs (freshWorld awsWorld.db))).certificates
      (runActions (List.take 5 [Action.change Field.name "Azure Admin",
        Action.change Field.expiryDate "2026-06-30", Action.submit HostOutcome.runs 7,
        Action.delete HostOutcome.runs 5,
        Action.submit (HostOutcome.requestFails (DbError.OtherError "UnknownError")) 9])
        (mountEffect HostOutcome.runs (freshWorld awsWorld.db))).db :=
  ⟨by decide,
   (sequential_list_matches_store awsWorld.db [Action.change Field.name "Azure Admin",
      Action.change Field.expiryDate "2026-06-30", Action.submit HostOutcome.runs 7,
      Action.delete HostOutcome.runs 5,
      Action.submit (HostOutcome.requestFails (DbError.OtherError "UnknownError")) 9] 5
      (by decide)).1⟩

/-- C15 fails on the code. `handleDelete` filters the list of the render that
created it, not the list current when its `await` ends. First run: on the
example vault a submission at reading 7 and then a click on the delete button
of record 5 are both suspended; the add settles and the list shows records 5
and 7; the delete settles and the list is empty, while the store holds
record 7. Second run: with records 5 and 7 stored and listed, the delete
buttons of both are clicked; after both deletes have settled the store is
empty and the list shows record 5. -/
theorem stale_delete_overwrites_list :
    (resumeOldest HostOutcome.runs
      (deleteStart 5 (submitStart 7 { world := awsWorld, pending := [] }))).world.certificates =
      [newCert awsForm 5, newCert awsForm 7] ∧
    (resumeOldest HostOutcome.runs (resumeOldest HostOutcome.runs
      (deleteStart 5 (submitStart 7 { world := awsWorld, pending := [] })))).world.certificates =
      [] ∧
    (resumeOldest HostOutcome.runs (resumeOldest HostOutcome.runs
      (deleteStart 5 (submitStart 7 { world := awsWorld, pending := [] })))).world.db =
      [newCert awsForm 7] ∧
    (resumeOldest HostOutcome.runs (resumeOldest HostOutcome.runs
      (deleteStart 5 (submitStart 7 { world := awsWorld, pending := [] })))).pending = [] ∧
    (handleSubmit HostOutcome.runs 7 awsWorld).world.certificates =
      [newCert awsForm 5, newCert awsForm 7] ∧
    (resumeOldest HostOutcome.runs (resumeOldest HostOutcome.runs
      (deleteStart 7 (deleteStart 5
        { world := (handleSubmit HostOutcome.runs 7 awsWorld).world,
          pending := [] })))).world.certificates = [newCert awsForm 5] ∧
    (resumeOldest HostOutcome.runs (resumeOldest HostOutcome.runs
      (deleteStart 7 (deleteStart 5
        { world := (handleSubmit HostOutcome.runs 7 awsWorld).world,
          pending := [] })))).world.db = [] := by
  refine ⟨?_, ?_, ?_, ?_, ?_, ?_, ?_⟩ <;> decide

/-- C16, as stated, fails: on the empty vault the submission `AWS SA` at
clock reading 7 succeeds as far as the handler can tell, the promise of
`dbAPI.add` resolves, the record is listed and no message is shown; the
transaction then aborts at commit, and a load on mount of a fresh `Dashboard`
yields no record. -/
theorem rolled_back_create_reloads_empty :
    (dbAPI.add (HostOutcome.commitFails (DbError.OtherError "QuotaExceededError"))
      ({ emptyWorld with form := awsForm } : World).db (newCert awsForm 7)).1 =
      Except.ok (newCert awsForm 7) ∧
    (handleSubmit (HostOutcome.commitFails (DbError.OtherError "QuotaExceededError")) 7
      { emptyWorld with form := awsForm }).world.certificates = [newCert awsForm 7] ∧
    (handleSubmit (HostOutcome.commitFails (DbError.OtherError "QuotaExceededError")) 7
      { emptyWorld with form := awsForm }).world.alerts = [] ∧
    (mountEffect HostOutcome.runs (freshWorld
      (handleSubmit (HostOutcome.commitFails (DbError.OtherError "QuotaExceededError")) 7
        { emptyWorld with form := awsForm }).world.db)).certificates = [] := by
  refine ⟨rfl, ?_, ?_, ?_⟩ <;> decide

/-- C16, amended. For every name, issuer and expiry date with name and expiry
date non-empty: after a `handleSubmit` on an empty object store whose
`dbAPI.add` succeeded and whose write the host committed, a load on mount of a
fresh `Dashboard` over the store yields exactly one record; its name, issuer
and expiry date are those submitted and its id is the clock reading taken by
the submission. -/
theorem create_then_loadAll (host : HostOutcome) (now : Int) (w : World)
    (hvalid : w.form.name ≠ "" ∧ w.form.expiryDate ≠ "")
    (hempty : w.db = [])
    (hok : ∃ c, (dbAPI.add host w.db (newCert w.form now)).1 = Except.ok c)
    (hcommit : host.commits = true) :
    (dbAPI.getAll HostOutcome.runs (handleSubmit host now w).world.db).1 =
      some (Except.ok [newCert w.form now]) ∧
    (mountEffect HostOutcome.runs
      (freshWorld (handleSubmit host now w).world.db)).certificates = [newCert w.form now] ∧
    (newCert w.form now).name = w.form.name ∧
    (newCert w.form now).issuer = w.form.issuer ∧
    (newCert w.form now).expiryDate = w.form.expiryDate ∧
    (newCert w.form now).id = now := by
  obtain ⟨c, hc⟩ := hok
  have hdb : (handleSubmit host now w).world.db = [newCert w.form now] := by
    rw [handleSubmit_db, missingDetails_of_valid w.form hvalid,
      (dbAPI_add_ok host w.db _ c hc).2.2, hcommit, hempty]
    rfl
  rw [hdb]
  exact ⟨rfl, rfl, rfl, rfl, rfl, rfl⟩

/-- Witness of C16 amended: the submission `AWS SA` at clock reading 7 on the
empty vault, committed by the host. -/
theorem create_then_loadAll_witness :
    (({ emptyWorld with form := awsForm } : World).form.name ≠ "" ∧
      ({ emptyWorld with form := awsForm } : World).form.expiryDate ≠ "") ∧
    ({ emptyWorld with form := awsForm } : World).db = [] ∧
    (dbAPI.add HostOutcome.runs ({ emptyWorld with form := awsForm } : World).db
      (newCert awsForm 7)).1 = Except.ok (newCert awsForm 7) ∧
    HostOutcome.runs.commits = true ∧
    (mountEffect HostOutcome.runs (freshWorld (handleSubmit HostOutcome.runs 7
      { emptyWorld with form := awsForm }).world.db)).certificates = [newCert awsForm 7] :=
  ⟨by decide, rfl, rfl, rfl,
   (create_then_loadAll HostOutcome.runs 7 { emptyWorld with form := awsForm }
      (by decide) rfl ⟨_, rfl⟩ rfl).2.1⟩

/-- C17, as stated, fails, in two ways. On the example vault the delete of
record 5 succeeds and is committed, and a load then yields no record; the form
is then submitted at a clock reading of 5, and the next load yields a record
of id 5 again. And when the delete of record 5 succeeds at its request and the
transaction aborts at commit, the promise has resolved and the list no longer
shows the record, but every load yields it. -/
theorem deleted_id_listed_again :
    (dbAPI.delete HostOutcome.runs awsWorld.db 5).1 = Except.ok 5 ∧
    (mountEffect HostOutcome.runs
      (freshWorld (handleDelete HostOutcome.runs 5 awsWorld).world.db)).certificates = [] ∧
    (mountEffect HostOutcome.runs (freshWorld
      (runActions [Action.submit HostOutcome.runs 5]
        (handleDelete HostOutcome.runs 5 awsWorld).world).db)).certificates =
      [newCert awsForm 5] ∧
    (dbAPI.delete (HostOutcome.commitFails (DbError.OtherError "QuotaExceededError"))
      awsWorld.db 5).1 = Except.ok 5 ∧
    (handleDelete (HostOutcome.commitFails (DbError.OtherError "QuotaExceededError"))
      5 awsWorld).world.certificates = [] ∧
    (mountEffect HostOutcome.runs (freshWorld
      (handleDelete (HostOutcome.commitFails (DbError.OtherError "QuotaExceededError"))
        5 awsWorld).world.db)).certificates = [newCert awsForm 5] := by
  refine ⟨rfl, ?_, ?_, rfl, ?_, ?_⟩ <;> decide

/-- C17, amended. For every object store and every id: after a `handleDelete`
whose `dbAPI.delete` succeeded and whose write the host committed, a load on
mount yields no record of that id, and so does a load after any further
events, each run to its end, among which no submission is made at a clock
reading equal to that id. A load leaves the store as it is, so repeated loads
yield the same records. -/
theorem deleted_id_stays_absent (host : HostOutcome) (id : Int) (w : World)
    (acts : List Action)
    (hok : ∃ r, (dbAPI.delete host w.db id).1 = Except.ok r)
    (hcommit : host.commits = true)
    (hother : ∀ h n, Action.submit h n ∈ acts → n ≠ id) :
    (∀ c ∈ (mountEffect HostOutcome.runs
        (freshWorld (handleDelete host id w).world.db)).certificates, c.id ≠ id) ∧
    (∀ c ∈ (mountEffect HostOutcome.runs
        (freshWorld (runActions acts (handleDelete host id w).world).db)).certificates,
      c.id ≠ id) ∧
    (∀ (h : HostOutcome) (db : ObjectStore), (dbAPI.getAll h db).2 = db) := by
  obtain ⟨r, hr⟩ := hok
  have hgone : ∀ c ∈ (handleDelete host id w).world.db, c.id ≠ id := by
    intro c hc
    rw [handleDelete_db, (dbAPI_delete_ok host w.db id r hr).2, hcommit, if_pos rfl] at hc
    simpa using (List.mem_filter.1 hc).2
  refine ⟨?_, ?_, fun h db => ?_⟩
  · rw [(mountEffect_runs _).1]
    exact hgone
  · rw [(mountEffect_runs _).1]
    exact runActions_no_key acts _ id hother hgone
  · cases h <;> rfl

/-- Witness of C17 amended: record 5 of the example vault is deleted, the
delete committed, then the form is submitted at clock reading 7. -/
theorem deleted_id_stays_absent_witness :
    (dbAPI.delete HostOutcome.runs awsWorld.db 5).1 = Except.ok 5 ∧
    HostOutcome.runs.commits = true ∧
    (∀ h n, Action.submit h n ∈ [Action.submit HostOutcome.runs 7] → n ≠ 5) ∧
    (∀ c ∈ (mountEffect HostOutcome.runs (freshWorld
        (runActions [Action.submit HostOutcome.runs 7]
          (handleDelete HostOutcome.runs 5 awsWorld).world).db)).certificates, c.id ≠ 5) :=
  ⟨rfl, rfl, by simp,
   (deleted_id_stays_absent HostOutcome.runs 5 awsWorld [Action.submit HostOutcome.runs 7]
      ⟨5, rfl⟩ rfl (by simp)).2.1⟩

/-- C18 fails on the code in one case. A load that succeeds sets the list to
the records returned by `getAll`, the empty list for an empty store; when the
open of the database fails the list stays empty and the error is logged with
`console.error`. But `dbAPI.getAll` gives its promise no `reject`: when its
request fails the promise stays pending, the list stays empty and nothing is
logged or shown. -/
theorem mountEffect_request_failure_unreported (db : ObjectStore) (e : DbError) :
    (mountEffect HostOutcome.runs (freshWorld db)).certificates = db ∧
    (mountEffect HostOutcome.runs (freshWorld [])).certificates = [] ∧
    (mountEffect (HostOutcome.openFails e) (freshWorld db)).certificates = [] ∧
    (mountEffect (HostOutcome.openFails e) (freshWorld db)).console =
      [{ label := none, error := e }] ∧
    (dbAPI.getAll (HostOutcome.requestFails e) db).1 = none ∧
    (mountEffect (HostOutcome.requestFails e) (freshWorld db)).certificates = [] ∧
    (mountEffect (HostOutcome.requestFails e) (freshWorld db)).console = [] ∧
    (mountEffect (HostOutcome.requestFails e) (freshWorld db)).alerts = [] :=
  ⟨rfl, rfl, rfl, rfl, rfl, rfl, rfl, rfl⟩

/-- C19. For every object store and every record whose id is the key of a
stored record, `dbAPI.add` fails, with a `ConstraintError` whenever the host
lets the request run, and leaves the store as it was: the stored record of
that id is still there and the new record is in the store only if it already
was. -/
theorem dbAPI_add_duplicate_rejected (host : HostOutcome) (db : ObjectStore)
    (cert : Certificate) (hdup : ∃ r ∈ db, r.id = cert.id) :
    (∃ e, (dbAPI.add host db cert).1 = Except.error e) ∧
    (dbAPI.add HostOutcome.runs db cert).1 = Except.error DbError.ConstraintError ∧
    (dbAPI.add host db cert).2 = db ∧
    (∀ r ∈ db, r.id = cert.id → r ∈ (dbAPI.add host db cert).2) ∧
    (cert ∈ (dbAPI.add host db cert).2 → cert ∈ db) := by
  have hk : hasKey db cert.id = true := (hasKey_iff db cert.id).2 hdup
  have herr : ∃ e, (dbAPI.add host db cert).1 = Except.error e := by
    cases host with
    | runs => exact ⟨DbError.ConstraintError, by simp [dbAPI.add, hk]⟩
    | openFails e1 => exact ⟨e1, rfl⟩
    | requestFails e1 => exact ⟨e1, rfl⟩
    | commitFails e1 => exact ⟨DbError.ConstraintError, by simp [dbAPI.add, hk]⟩
  obtain ⟨e, he⟩ := herr
  have hdb := dbAPI_add_error_db host db cert e he
  rw [hdb]
  exact ⟨⟨e, he⟩, by simp [dbAPI.add, hk], rfl, fun r hr _ => hr, fun h => h⟩

/-- Witness of C19: the record of the example vault is added again with
another name. -/
theorem dbAPI_add_duplicate_rejected_witness :
    (∃ r ∈ awsWorld.db, r.id = (newCert azureForm 5).id) ∧
    (dbAPI.add HostOutcome.runs awsWorld.db (newCert azureForm 5)).2 = awsWorld.db :=
  ⟨⟨newCert awsForm 5, by decide, rfl⟩,
   (dbAPI_add_duplicate_rejected HostOutcome.runs awsWorld.db (newCert azureForm 5)
      ⟨newCert awsForm 5, by decide, rfl⟩).2.2.1⟩

/-- C20. Deleting an id that is absent succeeds and changes nothing: for every
object store and every list without a record of the id, `dbAPI.delete`
resolves whenever the host lets the request run, and `handleDelete` leaves the
store and the list as they were, showing and logging nothing. Hence, for every
state, `handleDelete` applied twice leaves the same store and the same list as
applied once. -/
theorem handleDelete_absent_noop (host : HostOutcome) (id : Int) (w : World) :
    ((∀ r ∈ w.db, r.id ≠ id) → (∀ c ∈ w.certificates, c.id ≠ id) →
      (dbAPI.delete HostOutcome.runs w.db id).1 = Except.ok id ∧
      (handleDelete host id w).world.db = w.db ∧
      (handleDelete host id w).world.certificates = w.certificates ∧
      (handleDelete HostOutcome.runs id w).world.alerts = w.alerts ∧
      (handleDelete HostOutcome.runs id w).world.console = w.console ∧
      (handleDelete HostOutcome.runs id w).settled = Settled.fulfilled) ∧
    (handleDelete host id (handleDelete host id w).world).world.db =
      (handleDelete host id w).world.db ∧
    (handleDelete host id (handleDelete host id w).world).world.certificates =
      (handleDelete host id w).world.certificates := by
  have hdb : ∀ v : World, (handleDelete HostOutcome.runs id v).world.db =
      v.db.filter (fun r => decide (r.id ≠ id)) := fun v => rfl
  have hlist : ∀ v : World, (handleDelete HostOutcome.runs id v).world.certificates =
      v.certificates.filter (fun c => decide (c.id ≠ id)) := fun v => rfl
  cases host with
  | runs =>
    refine ⟨fun hstore hshown => ⟨rfl, ?_, ?_, rfl, rfl, rfl⟩, ?_, ?_⟩
    · rw [hdb]
      exact List.filter_eq_self.2 (fun r hr => by simpa using hstore r hr)
    · rw [hlist]
      exact List.filter_eq_self.2 (fun c hc => by simpa using hshown c hc)
    · rw [hdb, hdb, List.filter_filter]
      simp
    · rw [hlist, hlist, List.filter_filter]
      simp
  | openFails e => exact ⟨fun _ _ => ⟨rfl, rfl, rfl, rfl, rfl, rfl⟩, rfl, rfl⟩
  | requestFails e => exact ⟨fun _ _ => ⟨rfl, rfl, rfl, rfl, rfl, rfl⟩, rfl, rfl⟩
  | commitFails e =>
    have hkeep : ∀ v : World, (handleDelete (HostOutcome.commitFails e) id v).world.db = v.db :=
      fun v => rfl
    have hflt : ∀ v : World,
        (handleDelete (HostOutcome.commitFails e) id v).world.certificates =
          v.certificates.filter (fun c => decide (c.id ≠ id)) := fun v => rfl
    refine ⟨fun _ hshown => ⟨rfl, rfl, ?_, rfl, rfl, rfl⟩, ?_, ?_⟩
    · rw [hflt]
      exact List.filter_eq_self.2 (fun c hc => by simpa using hshown c hc)
    · rw [hkeep, hkeep]
    · rw [hflt, hflt, List.filter_filter]
      simp

/-- Witness of C20: the id 9 is deleted from the example vault, which holds
only the record of id 5. -/
theorem handleDelete_absent_noop_witness :
    (∀ r ∈ awsWorld.db, r.id ≠ 9) ∧ (∀ c ∈ awsWorld.certificates, c.id ≠ 9) ∧
    (handleDelete HostOutcome.runs 9 awsWorld).world.db = awsWorld.db ∧
    (handleDelete HostOutcome.runs 9 awsWorld).world.certificates = awsWorld.certificates :=
  ⟨by decide, by decide,
   ((handleDelete_absent_noop HostOutcome.runs 9 awsWorld).1 (by decide) (by decide)).2.1,
   ((handleDelete_absent_noop HostOutcome.runs 9 awsWorld).1 (by decide) (by decide)).2.2.1⟩

/-! ## Statistics and classification order: lemmas -/

/-- The divisor of `getStatus` as a numeral. -/
theorem msPerDay_eq : msPerDay = 86400000 := by decide

/-- The local `diffDays` on a date that parses to the instant `e`, as an
integer quotient. -/
theorem diffDays_int (toDate : String → Option Int) (now e : Int) (s : String)
    (h : toDate s = some e) :
    diffDays toDate now s = some (-((-(e - now)) / 86400000)) := by
  simp only [diffDays, h, dateDiff, mathCeilDays, msPerDay_eq]

/-- The status on a date that parses to the instant `e`, by integer
comparisons. -/
theorem getStatus_int (toDate : String → Option Int) (now e : Int) (s : String)
    (h : toDate s = some e) :
    getStatus toDate now s =
      if -((-(e - now)) / 86400000) < 0 then Status.EXPIRED
      else if -((-(e - now)) / 86400000) < 30 then Status.EXPIRING
      else Status.ACTIVE :=
  getStatus_of_diffDays toDate now _ s (diffDays_int toDate now e s h)

/-- The status on a date that does not parse. -/
theorem getStatus_of_none (toDate : String → Option Int) (now : Int) (s : String)
    (h : toDate s = none) : getStatus toDate now s = Status.ACTIVE := by
  simp [getStatus, diffDays, h, dateDiff, mathCeilDays, numLt]

/-- With one clock reading for all calls, `filterExpired` is the filter of the
list by the status EXPIRED at that reading. -/
theorem filterExpired_const (toDate : String → Option Int) (now : Int) (k : Nat)
    (certs : List Certificate) :
    filterExpired toDate (fun _ => now) k certs =
      certs.filter (fun c => decide (getStatus toDate now c.expiryDate = Status.EXPIRED)) := by
  induction certs generalizing k with
  | nil => rfl
  | cons c cs ih =>
    by_cases hc : getStatus toDate now c.expiryDate = Status.EXPIRED
    · simp [filterExpired, hc, ih]
    · simp [filterExpired, hc, ih]

/-- The filtered array is no longer than the list. -/
theorem filterExpired_length_le (toDate : String → Option Int) (clock : Nat → Int) (k : Nat)
    (certs : List Certificate) :
    (filterExpired toDate clock k certs).length ≤ certs.length := by
  induction certs generalizing k with
  | nil => exact Nat.le_refl _
  | cons c cs ih =>
    by_cases hc : getStatus toDate (clock k) c.expiryDate = Status.EXPIRED
    · simp only [filterExpired, hc, if_true, List.length_cons]
      exact Nat.succ_le_succ (ih (k + 1))
    · simp only [filterExpired, hc, if_false, List.length_cons]
      exact Nat.le_succ_of_le (ih (k + 1))

/-- A status other than EXPIRED is EXPIRING or ACTIVE. -/
theorem not_expired_iff (st : Status) :
    ¬ st = Status.EXPIRED ↔ st = Status.EXPIRING ∨ st = Status.ACTIVE := by
  cases st <;> simp

/-! ## Statistics and classification order: claims -/

/-- C21. Given a list of records and one clock reading `now` for the render,
`expiredCount` is the number of records of the list that `getStatus`
classifies EXPIRED, and the other number shown, `certificates.length -
expiredCount`, is the number of records classified EXPIRING or ACTIVE. -/
theorem expiredCount_counts (toDate : String → Option Int) (now : Int)
    (certs : List Certificate) :
    expiredCount toDate (fun _ => now) certs =
      certs.countP (fun c => decide (getStatus toDate now c.expiryDate = Status.EXPIRED)) ∧
    activeCount toDate (fun _ => now) certs =
      (certs.length : Int) - (expiredCount toDate (fun _ => now) certs : Int) ∧
    activeCount toDate (fun _ => now) certs =
      (certs.countP (fun c => decide (getStatus toDate now c.expiryDate = Status.EXPIRING ∨
        getStatus toDate now c.expiryDate = Status.ACTIVE)) : Int) := by
  have hcount : expiredCount toDate (fun _ => now) certs =
      certs.countP (fun c => decide (getStatus toDate now c.expiryDate = Status.EXPIRED)) := by
    rw [expiredCount, filterExpired_const, List.countP_eq_length_filter]
  have hrest : certs.countP (fun c => decide (getStatus toDate now c.expiryDate =
        Status.EXPIRING ∨ getStatus toDate now c.expiryDate = Status.ACTIVE)) =
      certs.countP (fun c =>
        ¬ (decide (getStatus toDate now c.expiryDate = Status.EXPIRED)) = true) := by
    apply List.countP_congr
    intro c _
    simp [not_expired_iff]
  have hsplit := List.length_eq_countP_add_countP
    (fun c => decide (getStatus toDate now c.expiryDate = Status.EXPIRED)) certs
  refine ⟨hcount, rfl, ?_⟩
  rw [activeCount, hcount, hrest]
  omega

/-- C22. No handler changes a record of the list. After `handleSubmit`,
whatever the outcome of its request, the list before is a prefix of the list
after: every record is at its index with all its fields. After `handleDelete`,
whatever the outcome, the list after is a sublist of the list before: every
record still listed is a record of the list before, with all its fields. In a
state where the list holds the records of the store and their ids are pairwise
distinct, a record listed before and a record listed after with the same id
are equal in id, name, issuer, expiry date and image. -/
theorem handlers_update_no_record (host : HostOutcome) (now id : Int) (w : World) :
    List.IsPrefix w.certificates (handleSubmit host now w).world.certificates ∧
    List.Sublist (handleDelete host id w).world.certificates w.certificates ∧
    (List.Perm w.certificates w.db →
      List.Pairwise (fun a b : Certificate => a.id ≠ b.id) w.certificates →
      (∀ c ∈ w.certificates, ∀ d ∈ (handleSubmit host now w).world.certificates,
        d.id = c.id → d = c) ∧
      (∀ c ∈ w.certificates, ∀ d ∈ (handleDelete host id w).world.certificates,
        d.id = c.id → d = c)) := by
  have hsame : ∀ (l : List Certificate),
      List.Pairwise (fun a b : Certificate => a.id ≠ b.id) l →
      ∀ c ∈ l, ∀ d ∈ l, d.id = c.id → d = c := by
    intro l hl c hc d hd hid
    by_contra hne
    exact List.Pairwise.forall (fun _ _ h => Ne.symm h) hl hd hc hne hid
  have hsub : List.Sublist (handleDelete host id w).world.certificates w.certificates := by
    simp only [handleDelete]
    cases hr : (dbAPI.delete host w.db id).1 with
    | error e => simp [handleDeleteResume]
    | ok r =>
      simp only [handleDeleteResume]
      exact List.filter_sublist _
  have hcases : (handleSubmit host now w).world.certificates = w.certificates ∨
      ((handleSubmit host now w).world.certificates = w.certificates ++ [newCert w.form now] ∧
        hasKey w.db now = false) := by
    by_cases hm : missingDetails w.form = true
    · rw [handleSubmit_world_of_missing host now w hm]
      exact Or.inl rfl
    · have hm1 : missingDetails w.form = false := by simpa using hm
      rw [handleSubmit_world_of_valid host now w hm1]
      cases hr : (dbAPI.add host w.db (newCert w.form now)).1 with
      | error e => exact Or.inl rfl
      | ok c => exact Or.inr ⟨rfl, (dbAPI_add_ok host w.db _ c hr).1⟩
  refine ⟨?_, hsub, fun hperm hdist => ⟨?_, ?_⟩⟩
  · rcases hcases with h | h
    · rw [h]
    · rw [h.1]
      exact List.prefix_append _ _
  · intro c hc d hd hid
    rcases hcases with h | h
    · rw [h] at hd
      exact hsame _ hdist c hc d hd hid
    · rw [h.1] at hd
      rcases List.mem_append.1 hd with hd | hd
      · exact hsame _ hdist c hc d hd hid
      · have hd1 : d = newCert w.form now := by simpa using hd
        have hkey : hasKey w.db now = true :=
          (hasKey_iff w.db now).2 ⟨c, hperm.mem_iff.1 hc, by rw [← hid, hd1]; rfl⟩
        rw [h.2] at hkey
        cases hkey
  · intro c hc d hd hid
    exact hsame _ hdist c hc d (hsub.subset hd) hid

/-- Witness of C22: the example vault, whose list holds the one record of the
store. -/
theorem handlers_update_no_record_witness :
    List.Perm awsWorld.certificates awsWorld.db ∧
    List.Pairwise (fun a b : Certificate => a.id ≠ b.id) awsWorld.certificates ∧
    (∀ c ∈ awsWorld.certificates,
      ∀ d ∈ (handleSubmit HostOutcome.runs 7 awsWorld).world.certificates,
        d.id = c.id → d = c) :=
  ⟨List.Perm.refl _, by decide,
   ((handlers_update_no_record HostOutcome.runs 7 5 awsWorld).2.2 (List.Perm.refl _)
      (by decide)).1⟩

/-- C23. For an expiry date that parses to the instant `e`, `getStatus`
returns EXPIRED exactly when `e` is at least one full day, 86400000 ms, before
`now`; for every `e` with `now - 86400000 < e` and `e ≤ now`, already past by
less than a day, it returns EXPIRING with a day difference of 0. -/
theorem getStatus_expired_iff_full_day (toDate : String → Option Int) (now e : Int)
    (s : String) (h : toDate s = some e) :
    (getStatus toDate now s = Status.EXPIRED ↔ e + 86400000 ≤ now) ∧
    (now - 86400000 < e ∧ e ≤ now →
      diffDays toDate now s = some 0 ∧ getStatus toDate now s = Status.EXPIRING) := by
  rw [getStatus_int toDate now e s h, diffDays_int toDate now e s h]
  refine ⟨?_, fun hr => ?_⟩
  · by_cases h0 : -((-(e - now)) / 86400000) < 0
    · simp only [h0, if_true, true_iff]
      omega
    · by_cases h30 : -((-(e - now)) / 86400000) < 30
      · simp only [h0, h30, if_false, if_true]
        constructor
        · intro hc
          cases hc
        · intro hc
          omega
      · simp only [h0, h30, if_false]
        constructor
        · intro hc
          cases hc
        · intro hc
          omega
  · have hd : -((-(e - now)) / 86400000) = 0 := by omega
    rw [hd]
    exact ⟨rfl, rfl⟩

/-- Witness of C23: the date `2025-01-01` read twelve hours after its
midnight. -/
theorem getStatus_expired_iff_full_day_witness :
    parseDateOnly "2025-01-01" = some 1735689600000 ∧
    ((1735732800000 : Int) - 86400000 < 1735689600000 ∧
      (1735689600000 : Int) ≤ 1735732800000) ∧
    getStatus parseDateOnly 1735732800000 "2025-01-01" = Status.EXPIRING :=
  ⟨by decide, by decide,
   ((getStatus_expired_iff_full_day parseDateOnly 1735732800000 1735689600000 "2025-01-01"
      (by decide)).2 (by decide)).2⟩

/-- C24. In the order EXPIRED, EXPIRING, ACTIVE: for a fixed `now`, of two
expiry dates that parse, the one with the later instant never has the lower
status; for a fixed expiry date, a later `now` never gives a higher status
than an earlier `now`. -/
theorem getStatus_monotone (toDate : String → Option Int) (s1 s2 : String)
    (now now1 now2 : Int) :
    (∀ e1 e2, toDate s1 = some e1 → toDate s2 = some e2 → e1 ≤ e2 →
      (getStatus toDate now s1).rank ≤ (getStatus toDate now s2).rank) ∧
    (now1 ≤ now2 →
      (getStatus toDate now2 s1).rank ≤ (getStatus toDate now1 s1).rank) := by
  refine ⟨fun e1 e2 h1 h2 hle => ?_, fun hle => ?_⟩
  · rw [getStatus_int toDate now e1 s1 h1, getStatus_int toDate now e2 s2 h2]
    split_ifs <;> simp only [Status.rank] <;> omega
  · cases h : toDate s1 with
    | none =>
      rw [getStatus_of_none toDate now1 s1 h, getStatus_of_none toDate now2 s1 h]
    | some e =>
      rw [getStatus_int toDate now1 e s1 h, getStatus_int toDate now2 e s1 h]
      split_ifs <;> simp only [Status.rank] <;> omega

/-- Witness of C24: the dates `2025-01-01` and `2026-06-30` read at
`2025-02-01T00:00Z`, and the date `2025-01-01` read at `2024-11-01T00:00Z`
and at `2025-02-01T00:00Z`. -/
theorem getStatus_monotone_witness :
    (parseDateOnly "2025-01-01" = some 1735689600000 ∧
      parseDateOnly "2026-06-30" = some 1782777600000 ∧
      (1735689600000 : Int) ≤ 1782777600000) ∧
    (1730419200000 : Int) ≤ 1738368000000 ∧
    (getStatus parseDateOnly 1738368000000 "2025-01-01").rank ≤
      (getStatus parseDateOnly 1738368000000 "2026-06-30").rank ∧
    (getStatus parseDateOnly 1738368000000 "2025-01-01").rank ≤
      (getStatus parseDateOnly 1730419200000 "2025-01-01").rank :=
  ⟨⟨by decide, by decide, by decide⟩, by decide,
   (getStatus_monotone parseDateOnly "2025-01-01" "2026-06-30" 1738368000000
      1730419200000 1738368000000).1 1735689600000 1782777600000
      (by decide) (by decide) (by decide),
   (getStatus_monotone parseDateOnly "2025-01-01" "2026-06-30" 1738368000000
      1730419200000 1738368000000).2 (by decide)⟩

/-- C25. For every expiry date that does not parse to a valid date and every
`now`, the day difference is `NaN`, neither comparison of `getStatus` holds,
and `getStatus` returns ACTIVE. -/
theorem getStatus_invalid_date (toDate : String → Option Int) (now : Int) (s : String)
    (h : toDate s = none) :
    diffDays toDate now s = none ∧
    numLt (diffDays toDate now s) 0 = false ∧
    numLt (diffDays toDate now s) 30 = false ∧
    getStatus toDate now s = Status.ACTIVE := by
  have hd : diffDays toDate now s = none := by
    simp [diffDays, h, dateDiff, mathCeilDays]
  rw [hd]
  exact ⟨rfl, rfl, rfl, getStatus_of_none toDate now s h⟩

/-- Witness of C25: the empty string, which is not a date. -/
theorem getStatus_invalid_date_witness :
    parseDateOnly "" = none ∧
    getStatus parseDateOnly 1735689600000 "" = Status.ACTIVE :=
  ⟨by decide, (getStatus_invalid_date parseDateOnly 1735689600000 "" (by decide)).2.2.2⟩

/-- C26. For every list of records and every reading of the clock by the
calls of `getStatus`, `expiredCount` is at least 0 and at most the length of
the list, so the number shown as active, `certificates.length - expiredCount`,
is not negative, and the two numbers shown add up to the length. -/
theorem expiredCount_bounds (toDate : String → Option Int) (clock : Nat → Int)
    (certs : List Certificate) :
    (0 : Int) ≤ (expiredCount toDate clock certs : Int) ∧
    expiredCount toDate clock certs ≤ certs.length ∧
    (0 : Int) ≤ activeCount toDate clock certs ∧
    (expiredCount toDate clock certs : Int) + activeCount toDate clock certs =
      (certs.length : Int) := by
  have hle : expiredCount toDate clock certs ≤ certs.length :=
    filterExpired_length_le toDate clock 0 certs
  refine ⟨by omega, hle, ?_, ?_⟩ <;> simp only [activeCount] <;> omega

/-! ## Distinct ids: lemmas -/

/-- A call of `dbAPI.add` with a key that is present rejects. -/
theorem dbAPI_add_hasKey_error (host : HostOutcome) (db : ObjectStore) (cert : Certificate)
    (hk : hasKey db cert.id = true) : ∃ e, (dbAPI.add host db cert).1 = Except.error e := by
  cases host with
  | runs => exact ⟨DbError.ConstraintError, by simp [dbAPI.add, hk]⟩
  | openFails e1 => exact ⟨e1, rfl⟩
  | requestFails e1 => exact ⟨e1, rfl⟩
  | commitFails e1 => exact ⟨DbError.ConstraintError, by simp [dbAPI.add, hk]⟩

/-- Inserting a record whose key is absent keeps the keys of the store
pairwise distinct. -/
theorem insertByKey_distinct (c : Certificate) (db : ObjectStore)
    (hk : hasKey db c.id = false)
    (h : List.Pairwise (fun a b : Certificate => a.id ≠ b.id) db) :
    List.Pairwise (fun a b : Certificate => a.id ≠ b.id) (insertByKey c db) := by
  rw [List.Perm.pairwise_iff (fun hab => Ne.symm hab) (insertByKey_perm c db)]
  refine List.pairwise_cons.2 ⟨fun r hr heq => ?_, h⟩
  have hkey : hasKey db c.id = true := (hasKey_iff db c.id).2 ⟨r, hr, heq.symm⟩
  rw [hk] at hkey
  cases hkey

/-- One event run to its end keeps the list within the records of the store
and the keys of the store pairwise distinct, unless it is a submission whose
resolved `add` the host rolls back at commit. -/
theorem runAction_keyed (w : World) (a : Action)
    (ha : ∀ host now, a = Action.submit host now → host.commits = true)
    (h : List.Subperm w.certificates w.db ∧
      List.Pairwise (fun a b : Certificate => a.id ≠ b.id) w.db) :
    List.Subperm (runAction w a).certificates (runAction w a).db ∧
      List.Pairwise (fun a b : Certificate => a.id ≠ b.id) (runAction w a).db := by
  cases a with
  | change field value =>
    simp only [runAction, (handleChange_frame field value w).1,
      (handleChange_frame field value w).2]
    exact h
  | file chosen result =>
    simp only [runAction, (chooseFile_frame chosen result w).1,
      (chooseFile_frame chosen result w).2]
    exact h
  | submit host now =>
    have hcommit : host.commits = true := ha host now rfl
    simp only [runAction]
    by_cases hm : missingDetails w.form = true
    · rw [handleSubmit_world_of_missing host now w hm]
      exact h
    · have hm1 : missingDetails w.form = false := by simpa using hm
      rw [handleSubmit_world_of_valid host now w hm1]
      cases hr : (dbAPI.add host w.db (newCert w.form now)).1 with
      | error e =>
        simp only [handleSubmitResume, dbAPI_add_error_db host w.db _ e hr]
        exact h
      | ok c =>
        have hadd := dbAPI_add_ok host w.db _ c hr
        simp only [handleSubmitResume, hadd.2.2, hcommit, if_true]
        refine ⟨?_, insertByKey_distinct _ _ hadd.1 h.2⟩
        exact ((List.perm_append_singleton _ _).subperm_right).2
          (((insertByKey_perm _ _).subperm_left).2 ((List.subperm_cons _).2 h.1))
  | delete host id =>
    simp only [runAction, handleDelete]
    cases hr : (dbAPI.delete host w.db id).1 with
    | error e =>
      simp only [handleDeleteResume, dbAPI_delete_error_db host w.db id e hr]
      exact h
    | ok r =>
      simp only [handleDeleteResume, (dbAPI_delete_ok host w.db id r hr).2]
      by_cases hcommit : host.commits = true
      · simp only [hcommit, if_true, deleteKey]
        exact ⟨h.1.filter _, h.2.filter _⟩
      · simp only [hcommit]
        exact ⟨(List.filter_sublist _).subperm.trans h.1, h.2⟩

/-- A sequence of events, each run to its end, keeps the list within the
records of the store and the keys of the store pairwise distinct, when the
host commits the transaction of every submission. -/
theorem runActions_keyed (acts : List Action) (w : World)
    (ha : ∀ host now, Action.submit host now ∈ acts → host.commits = true)
    (h : List.Subperm w.certificates w.db ∧
      List.Pairwise (fun a b : Certificate => a.id ≠ b.id) w.db) :
    List.Subperm (runActions acts w).certificates (runActions acts w).db ∧
      List.Pairwise (fun a b : Certificate => a.id ≠ b.id) (runActions acts w).db := by
  induction acts generalizing w with
  | nil => exact h
  | cons a rest ih =>
    refine ih (runAction w a)
      (fun host now hmem => ha host now (List.mem_cons_of_mem _ hmem)) ?_
    exact runAction_keyed w a
      (fun host now heq => ha host now (heq ▸ List.mem_cons_self _ _)) h

/-- After the load on mount, whatever its outcome, the list is within the
records of the store. -/
theorem mountEffect_subperm (host : HostOutcome) (db : ObjectStore) :
    List.Subperm (mountEffect host (freshWorld db)).certificates
      (mountEffect host (freshWorld db)).db ∧
    (mountEffect host (freshWorld db)).db = db := by
  cases host with
  | runs => exact ⟨List.Subperm.refl _, rfl⟩
  | openFails e => exact ⟨List.nil_subperm, rfl⟩
  | requestFails e => exact ⟨List.nil_subperm, rfl⟩
  | commitFails e => exact ⟨List.Subperm.refl _, rfl⟩

/-- A list within a list of pairwise distinct ids has pairwise distinct ids. -/
theorem distinct_of_subperm (l db : List Certificate) (hsub : List.Subperm l db)
    (h : List.Pairwise (fun a b : Certificate => a.id ≠ b.id) db) :
    List.Pairwise (fun a b : Certificate => a.id ≠ b.id) l := by
  obtain ⟨l1, hperm, hsl⟩ := hsub
  exact (List.Perm.pairwise_iff (fun hab => Ne.symm hab) hperm).1 (h.sublist hsl)

/-! ## Distinct ids: claim -/

/-- C27, as stated, fails: after a successful load on mount over the empty
store the form is filled and submitted at clock reading 7, the request of
`dbAPI.add` succeeds and the transaction aborts at commit, so the record is
listed and not stored; the form is filled again and submitted at the same
reading 7, the store has no record of that key, the `add` succeeds, and the
list holds two records of id 7. -/
theorem rolled_back_add_then_same_id :
    (runActions
      [Action.change Field.name "AWS SA", Action.change Field.issuer "Amazon",
        Action.change Field.expiryDate "2025-01-01",
        Action.submit (HostOutcome.commitFails (DbError.OtherError "QuotaExceededError")) 7,
        Action.change Field.name "Azure Admin", Action.change Field.issuer "Microsoft",
        Action.change Field.expiryDate "2026-06-30", Action.submit HostOutcome.runs 7]
      (mountEffect HostOutcome.runs (freshWorld []))).certificates =
      [newCert awsForm 7, newCert azureForm 7] ∧
    (newCert awsForm 7).id = (newCert azureForm 7).id ∧
    ¬ List.Pairwise (fun a b : Certificate => a.id ≠ b.id)
      (runActions
        [Action.change Field.name "AWS SA", Action.change Field.issuer "Amazon",
          Action.change Field.expiryDate "2025-01-01",
          Action.submit (HostOutcome.commitFails (DbError.OtherError "QuotaExceededError")) 7,
          Action.change Field.name "Azure Admin", Action.change Field.issuer "Microsoft",
          Action.change Field.expiryDate "2026-06-30", Action.submit HostOutcome.runs 7]
        (mountEffect HostOutcome.runs (freshWorld []))).certificates := by
  refine ⟨?_, rfl, ?_⟩ <;> decide

/-- C27, amended. Start from the load on mount over an object store keyed by
id, its keys pairwise distinct, and let any events follow, each handler run to
its end before the next, the host committing the write of every submission
whose `add` it lets run. After every one of them the ids of the records of the
list are pairwise distinct. A submission whose id, the clock reading, is the
key of a stored record fails at `dbAPI.add` and appends nothing to the list. -/
theorem list_ids_pairwise_distinct (host0 : HostOutcome) (db0 : ObjectStore)
    (acts : List Action) (n : Nat)
    (hkeyed : List.Pairwise (fun a b : Certificate => a.id ≠ b.id) db0)
    (hcommit : ∀ host now, Action.submit host now ∈ acts → host.commits = true) :
    List.Pairwise (fun a b : Certificate => a.id ≠ b.id)
      (runActions (acts.take n) (mountEffect host0 (freshWorld db0))).certificates ∧
    (∀ (host : HostOutcome) (now : Int) (w : World), (∃ r ∈ w.db, r.id = now) →
      (∃ e, (dbAPI.add host w.db (newCert w.form now)).1 = Except.error e) ∧
      (handleSubmit host now w).world.certificates = w.certificates ∧
      (handleSubmit host now w).world.db = w.db) := by
  constructor
  · have h0 := mountEffect_subperm host0 db0
    have hinv := runActions_keyed (acts.take n) (mountEffect host0 (freshWorld db0))
      (fun host now hmem => hcommit host now (List.mem_of_mem_take hmem))
      ⟨h0.1, by rw [h0.2]; exact hkeyed⟩
    exact distinct_of_subperm _ _ hinv.1 hinv.2
  · intro host now w hdup
    have hk : hasKey w.db (newCert w.form now).id = true := (hasKey_iff w.db now).2 hdup
    obtain ⟨e, he⟩ := dbAPI_add_hasKey_error host w.db (newCert w.form now) hk
    refine ⟨⟨e, he⟩, ?_, ?_⟩
    · by_cases hm : missingDetails w.form = true
      · rw [handleSubmit_world_of_missing host now w hm]
      · have hm1 : missingDetails w.form = false := by simpa using hm
        rw [handleSubmit_world_of_valid host now w hm1, he]
        rfl
    · rw [handleSubmit_db, dbAPI_add_error_db host w.db _ e he]
      simp

/-- Witness of C27 amended: the example store with its one record, loaded on
mount, then the form `AWS SA` submitted at the clock reading 5 of the stored
record, which the store rejects, and at reading 7, committed by the host. -/
theorem list_ids_pairwise_distinct_witness :
    List.Pairwise (fun a b : Certificate => a.id ≠ b.id) awsWorld.db ∧
    (∀ host now, Action.submit host now ∈
        [Action.change Field.name "AWS SA", Action.change Field.expiryDate "2025-01-01",
          Action.submit HostOutcome.runs 5, Action.submit HostOutcome.runs 7] →
      host.commits = true) ∧
    List.Pairwise (fun a b : Certificate => a.id ≠ b.id)
      (runActions
        (List.take 4 [Action.change Field.name "AWS SA",
          Action.change Field.expiryDate "2025-01-01",
          Action.submit HostOutcome.runs 5, Action.submit HostOutcome.runs 7])
        (mountEffect HostOutcome.runs (freshWorld awsWorld.db))).certificates :=
  ⟨by decide,
   by
    intro host now hmem
    simp at hmem
    rcases hmem with h | h <;> rw [h.1] <;> rfl,
   (list_ids_pairwise_distinct HostOutcome.runs awsWorld.db
      [Action.change Field.name "AWS SA", Action.change Field.expiryDate "2025-01-01",
        Action.submit HostOutcome.runs 5, Action.submit HostOutcome.runs 7] 4
      (by decide)
      (by
        intro host now hmem
        simp at hmem
        rcases hmem with h | h <;> rw [h.1] <;> rfl)).1⟩

end CertifyTracker
